import Mathlib

/-!
Verification of the persona search & ranking engine (koridor4ik).

The Python sources are shallowly embedded: each `def` below mirrors one
Python function (SQL is embedded by its semantics over an explicitly
ordered store, dictionaries by insertion-ordered association lists,
wall-clock floats by rationals, and library boundaries — `json.loads`,
`float`, the LLM client, the FTS index — by explicit function
parameters).  Theorems about the claims follow the definitions.
-/

namespace Koridor

/-! ### Data model

`personas` table rows in the store's natural (rowid) order, and
`persona_tags` rows as (persona_id, category, value) triples. -/

structure Persona where
  persona_id : String
  title : String
  profile_md : String
deriving DecidableEq, Repr

/-- Rows of the `persona_tags` table: (persona_id, (category, value)). -/
abbrev TagDB := List (String × String × String)

/-- The SQL `EXISTS (SELECT 1 FROM persona_tags t WHERE t.persona_id=? AND
t.category=? AND t.value=?)` test. -/
def hasTag (tags : TagDB) (pid cat v : String) : Bool :=
  tags.any (fun t => t.1 == pid && t.2.1 == cat && t.2.2 == v)

/-- Maps `category -> [values]`, as Python `dict[str, list[str]]` in
insertion order. -/
abbrev FilterMap := List (String × List String)

/-- Flatten a filter map to its (category, value) pairs, as the nested
`for cat, values in m.items(): for v in values:` loops do. -/
def pairsOf (m : FilterMap) : List (String × String) :=
  m.flatMap (fun cv => cv.2.map (fun v => (cv.1, v)))

/-- Contiguous-substring test on character lists (Python's `in` on
strings, `needle in hay`). -/
def isSubChars (needle : List Char) : List Char → Bool
  | [] => needle.isEmpty
  | c :: cs => needle.isPrefixOf (c :: cs) || isSubChars needle cs

/-- Python `needle in hay` for strings. -/
def containsSub (needle hay : String) : Bool :=
  isSubChars needle.data hay.data

/-- SQLite `LIKE '%needle%'` on titles (ASCII-case-insensitive, as
SQLite's default LIKE).  Only the `title_like=None` path is exercised by
the claims; this keeps the embedding total. -/
def likeMatch (needle hay : String) : Bool :=
  isSubChars (needle.data.map Char.toLower) (hay.data.map Char.toLower)

/-- `chat/talk.py::search_personas_advanced`.  The generated SQL is one
`AND` of clauses over `personas p`: `p.title LIKE ?` (when given), one
`EXISTS` per `include_all` pair, a single `EXISTS` whose body is the `OR`
of all flattened `include_any` pairs (emitted only when at least one pair
exists), and one `NOT EXISTS` per `exclude` pair; then `LIMIT ?`. -/
def search_personas_advanced (personas : List Persona) (tags : TagDB)
    (include_all include_any exclude : FilterMap)
    (title_like : Option String) (limit : Nat) : List Persona :=
  let anyPairs := pairsOf include_any
  (personas.filter (fun p =>
    (match title_like with
     | none => true
     | some t => likeMatch t p.title)
    && (pairsOf include_all).all (fun cv => hasTag tags p.persona_id cv.1 cv.2)
    && (anyPairs.isEmpty || anyPairs.any (fun cv => hasTag tags p.persona_id cv.1 cv.2))
    && (pairsOf exclude).all (fun cv => !hasTag tags p.persona_id cv.1 cv.2))).take limit

/-- The tag-filter predicate exactly as the specification words it:
every `include_all` pair present, at least one pair of the flattened
`include_any` union present whenever that union is non-empty, and no
`exclude` pair present.  (A category mapped to an empty value list is an
empty section and contributes no pairs.) -/
def specTagMatch (tags : TagDB) (include_all include_any exclude : FilterMap)
    (p : Persona) : Prop :=
  (∀ cv ∈ pairsOf include_all, hasTag tags p.persona_id cv.1 cv.2 = true) ∧
  (pairsOf include_any ≠ [] →
    ∃ cv ∈ pairsOf include_any, hasTag tags p.persona_id cv.1 cv.2 = true) ∧
  (∀ cv ∈ pairsOf exclude, hasTag tags p.persona_id cv.1 cv.2 = false)

instance (tags : TagDB) (ia iy ex : FilterMap) (p : Persona) :
    Decidable (specTagMatch tags ia iy ex p) := by
  unfold specTagMatch; infer_instance

/-- C1: the tag filter search returns exactly the stored profiles
satisfying the spec predicate (include_all AND, flat include_any OR,
exclude AND-of-NOTs), kept in the store's natural order and truncated to
`limit`. -/
theorem C1_searchByFilters_exact (personas : List Persona) (tags : TagDB)
    (include_all include_any exclude : FilterMap) (limit : Nat) :
    search_personas_advanced personas tags include_all include_any exclude none limit
      = (personas.filter
          (fun p => decide (specTagMatch tags include_all include_any exclude p))).take limit := by
  unfold search_personas_advanced
  dsimp only
  congr 1
  apply List.filter_congr
  intro p _
  rw [Bool.eq_iff_iff]
  simp only [specTagMatch, decide_eq_true_eq, Bool.and_eq_true, Bool.or_eq_true,
    List.all_eq_true, List.any_eq_true, List.isEmpty_iff, Bool.not_eq_true', true_and]
  constructor
  · rintro ⟨⟨hall, hany⟩, hex⟩
    refine ⟨fun cv h => hall cv h, ?_, fun cv h => hex cv h⟩
    intro hne
    rcases hany with h | h
    · exact absurd h hne
    · exact h
  · rintro ⟨hall, hany, hex⟩
    by_cases hne : pairsOf include_any = []
    · exact ⟨⟨fun cv h => hall cv h, Or.inl hne⟩, fun cv h => hex cv h⟩
    · exact ⟨⟨fun cv h => hall cv h, Or.inr (hany hne)⟩, fun cv h => hex cv h⟩

/-! ### Python string primitives

The Lean core `String` position-based operations are replaced by
character-list implementations of the Python semantics the sources use
(`lower`, `strip`, `replace` with one-character arguments, whitespace
`split`, single-character `split`).  `str.lower()` is implemented for
ASCII and Cyrillic — the only scripts the sources' lexicons, keys and
regexes distinguish; other characters are left unchanged. -/

/-- Python `str.lower()` per character: ASCII `A-Z` (65–90), Cyrillic
`А-Я` (U+0410–U+042F) and `Ё` (U+0401). -/
def pyLowerChar (c : Char) : Char :=
  if 65 ≤ c.toNat ∧ c.toNat ≤ 90 then Char.ofNat (c.toNat + 32)
  else if 0x410 ≤ c.toNat ∧ c.toNat ≤ 0x42F then Char.ofNat (c.toNat + 32)
  else if c.toNat = 0x401 then Char.ofNat 0x451
  else c

lemma toNat_ofNat_of_valid {n : Nat} (h : n < 0xd800) :
    (Char.ofNat n).toNat = n := by
  unfold Char.ofNat
  rw [dif_pos (Or.inl h)]
  rfl

lemma pyLowerChar_fix (c : Char) (h1 : ¬(65 ≤ c.toNat ∧ c.toNat ≤ 90))
    (h2 : ¬(0x410 ≤ c.toNat ∧ c.toNat ≤ 0x42F)) (h3 : ¬(c.toNat = 0x401)) :
    pyLowerChar c = c := by
  unfold pyLowerChar
  rw [if_neg h1, if_neg h2, if_neg h3]

/-- Lowering is idempotent (lowered characters fall outside every
uppercase range). -/
lemma pyLowerChar_idem (c : Char) :
    pyLowerChar (pyLowerChar c) = pyLowerChar c := by
  by_cases h1 : 65 ≤ c.toNat ∧ c.toNat ≤ 90
  · have hv : (Char.ofNat (c.toNat + 32)).toNat = c.toNat + 32 :=
      toNat_ofNat_of_valid (by omega)
    have hres : pyLowerChar c = Char.ofNat (c.toNat + 32) := by
      unfold pyLowerChar
      rw [if_pos h1]
    rw [hres]
    exact pyLowerChar_fix _ (by rw [hv]; omega) (by rw [hv]; omega)
      (by rw [hv]; omega)
  · by_cases h2 : 0x410 ≤ c.toNat ∧ c.toNat ≤ 0x42F
    · have hv : (Char.ofNat (c.toNat + 32)).toNat = c.toNat + 32 :=
        toNat_ofNat_of_valid (by omega)
      have hres : pyLowerChar c = Char.ofNat (c.toNat + 32) := by
        unfold pyLowerChar
        rw [if_neg h1, if_pos h2]
      rw [hres]
      exact pyLowerChar_fix _ (by rw [hv]; omega) (by rw [hv]; omega)
        (by rw [hv]; omega)
    · by_cases h3 : c.toNat = 0x401
      · have hv : (Char.ofNat 0x451).toNat = 0x451 :=
          toNat_ofNat_of_valid (by omega)
        have hres : pyLowerChar c = Char.ofNat 0x451 := by
          unfold pyLowerChar
          rw [if_neg h1, if_neg h2, if_pos h3]
        rw [hres]
        exact pyLowerChar_fix _ (by rw [hv]; omega) (by rw [hv]; omega)
          (by rw [hv]; omega)
      · rw [pyLowerChar_fix c h1 h2 h3, pyLowerChar_fix c h1 h2 h3]

/-- Python `str.lower()`. -/
def pyLower (s : String) : String :=
  String.mk (s.data.map pyLowerChar)

lemma pyLower_idem (s : String) : pyLower (pyLower s) = pyLower s := by
  unfold pyLower
  apply congrArg String.mk
  rw [List.map_map]
  apply List.map_congr_left
  intro c _
  exact pyLowerChar_idem c

/-- Python `str.strip()`: drop leading and trailing whitespace. -/
def pyStripChars (l : List Char) : List Char :=
  ((l.dropWhile Char.isWhitespace).reverse.dropWhile Char.isWhitespace).reverse

/-- Python `str.strip()`. -/
def pyStrip (s : String) : String :=
  String.mk (pyStripChars s.data)

/-- Python `str.replace(old, new)` for one-character arguments. -/
def pyReplaceChar (old new : Char) (s : String) : String :=
  String.mk (s.data.map (fun c => if c = old then new else c))

/-- Python `str.split()` (split on whitespace runs, no empty tokens),
written with a step-count so the recursion is structural; `fuel ≥
length` always suffices. -/
def splitWSF : Nat → List Char → List (List Char)
  | 0, _ => []
  | _ + 1, [] => []
  | fuel + 1, c :: cs =>
    if c.isWhitespace then splitWSF fuel cs
    else (c :: cs.takeWhile (fun d => !d.isWhitespace))
      :: splitWSF fuel (cs.dropWhile (fun d => !d.isWhitespace))

/-- Python `str.split()`. -/
def pySplitWS (s : String) : List String :=
  (splitWSF (s.data.length + 1) s.data).map String.mk

/-- Python `str.split(sep)` for a one-character separator (keeps empty
pieces, as Python does). -/
def splitOnChar (sep : Char) : List Char → List (List Char)
  | [] => [[]]
  | c :: cs =>
    let r := splitOnChar sep cs
    if c = sep then [] :: r
    else
      match r with
      | [] => [[c]]
      | t :: ts => (c :: t) :: ts

/-- Every token produced by the whitespace splitter is a contiguous
substring of the input. -/
lemma splitWSF_token_within :
    ∀ (fuel : Nat) (l t : List Char), t ∈ splitWSF fuel l → t <:+: l := by
  intro fuel
  induction fuel with
  | zero => intro l t h; simp [splitWSF] at h
  | succ fuel ih =>
    intro l t h
    match l with
    | [] => simp [splitWSF] at h
    | c :: cs =>
      rw [splitWSF] at h
      by_cases hw : c.isWhitespace
      · rw [if_pos hw] at h
        exact (ih cs t h).trans (List.infix_cons (List.infix_refl cs))
      · rw [if_neg hw] at h
        rcases List.mem_cons.mp h with h | h
        · subst h
          exact (List.cons_prefix_cons.mpr ⟨rfl, cs.takeWhile_prefix _⟩).isInfix
        · have hsuf : (cs.dropWhile (fun d => !d.isWhitespace)) <:+ c :: cs :=
            (cs.dropWhile_suffix _).trans (List.suffix_cons c cs)
          exact (ih _ t h).trans hsuf.isInfix

/-- Tokens of a string are substrings of it: `containsSub` finds every
whitespace-delimited token. -/
lemma isSubChars_of_within :
    ∀ (hay needle : List Char), needle <:+: hay → isSubChars needle hay = true := by
  intro hay
  induction hay with
  | nil =>
    intro needle h
    rw [List.infix_nil] at h
    subst h; rfl
  | cons c cs ih =>
    intro needle h
    rcases h with ⟨pre, post, hsplit⟩
    match pre with
    | [] =>
      rw [isSubChars]
      apply Bool.or_eq_true_iff.mpr
      left
      simp only [List.nil_append] at hsplit
      have : needle <+: c :: cs := ⟨post, hsplit⟩
      exact List.isPrefixOf_iff_prefix.mpr this
    | d :: ds =>
      rw [isSubChars]
      apply Bool.or_eq_true_iff.mpr
      right
      apply ih
      rcases hsplit with hsplit
      simp only [List.cons_append] at hsplit
      exact ⟨ds, post, (List.cons.injEq _ _ _ _ ▸ hsplit).2⟩

/-! ### Taxonomy mapper (`llm_map_description_to_filters`)

`chat/talk.py::llm_map_description_to_filters` and its async twin
`bot/services/persona_search.py::_llm_map_description_to_filters_async`
have identical post-processing; one embedding covers both.  The JSON
value returned by `json.loads` is modelled explicitly; `json.loads`
itself is a library boundary passed in as `loads` (`none` = the decode
raised, which the code catches). -/

/-- Decoded JSON values (Python objects produced by `json.loads`). -/
inductive Json where
  | null
  | bool (b : Bool)
  | num (n : Int)
  | str (s : String)
  | arr (elems : List Json)
  | obj (fields : List (String × Json))

/-- Python truthiness of a decoded JSON value (`x or default`). -/
def Json.truthy : Json → Bool
  | .null => false
  | .bool b => b
  | .num n => n != 0
  | .str s => !s.isEmpty
  | .arr xs => !xs.isEmpty
  | .obj kvs => !kvs.isEmpty

/-- Exceptions the embedded code can raise to its caller. -/
inductive PyErr where
  | upstream       -- raised out of the Scoring Client call (timeout / API error)
  | attributeError -- e.g. `.items()` / `.get` on a non-dict
  | typeError      -- e.g. iterating a non-iterable
deriving DecidableEq, Repr

/-- `d.get(key)` for a dict field list (first binding wins, as decoded
dicts have unique keys). -/
def jsonGet (fields : List (String × Json)) (key : String) : Option Json :=
  fields.lookup key

/-- `d.get(key) or default`: missing and falsy values are replaced. -/
def jsonGetOr (fields : List (String × Json)) (key : String) (dflt : Json) : Json :=
  match jsonGet fields key with
  | none => dflt
  | some v => if v.truthy then v else dflt

/-- Python `for x in obj` semantics: lists yield elements, strings yield
1-character strings, dicts yield their keys; other objects raise. -/
def Json.iterElems : Json → Except PyErr (List Json)
  | .arr xs => .ok xs
  | .str s => .ok (s.data.map (fun c => .str (String.mk [c])))
  | .obj kvs => .ok (kvs.map (fun kv => .str kv.1))
  | _ => .error .typeError

/-- Keep only the string elements (`[k for k in xs if isinstance(k, str)]`). -/
def onlyStrings (xs : List Json) : List String :=
  xs.filterMap (fun j => match j with | .str s => some s | _ => none)

/-- The validated result `{tags, keywords, alt_queries}`. -/
structure MappedFilters where
  tags : List (String × List String)
  keywords : List String
  alt_queries : List String
deriving DecidableEq, Repr

/-- `tags[cat] = filtered_vals`: dict assignment — update an existing
key in place, else append. -/
def dictAssign (m : List (String × List String)) (cat : String) (vals : List String) :
    List (String × List String) :=
  if (m.lookup cat).isSome then
    m.map (fun kv => if kv.1 == cat then (cat, vals) else kv)
  else m ++ [(cat, vals)]

/-- The known-taxonomy validation loop over `raw_tags.items()`:
`if cat in known_tax and isinstance(vals, list):` keep the string values
appearing under `known_tax[cat]`, and record the category only when some
value survived. -/
def validateStep (known acc : List (String × List String)) (cat : String)
    (vals : Json) : List (String × List String) :=
  match known.lookup cat, vals with
  | some kvals, .arr elems =>
    let filtered := (onlyStrings elems).filter (fun v => kvals.contains v)
    if filtered.isEmpty then acc else dictAssign acc cat filtered
  | _, _ => acc

def validateTags (known : List (String × List String)) :
    List (String × Json) → List (String × List String) → List (String × List String)
  | [], acc => acc
  | (cat, vals) :: rest, acc => validateTags known rest (validateStep known acc cat vals)

/-- Post-`json.loads` body of the mapper.  `data.get(...)` requires a
dict: a decoded non-object raises `AttributeError`, as does a truthy
non-dict `tags` value reaching `.items()`; a truthy non-iterable
`keywords`/`alt_queries` raises `TypeError`. -/
def mapperValidate (known : List (String × List String)) (data : Json) :
    Except PyErr MappedFilters := do
  match data with
  | .obj fields =>
    let rawTags := jsonGetOr fields "tags" (.obj [])
    match rawTags with
    | .obj tagItems =>
      let tags := validateTags known tagItems []
      let kws ← (jsonGetOr fields "keywords" (.arr [])).iterElems
      let alts ← (jsonGetOr fields "alt_queries" (.arr [])).iterElems
      return ⟨tags, onlyStrings kws, onlyStrings alts⟩
    | _ => .error .attributeError
  | _ => .error .attributeError

/-- `llm_map_description_to_filters`.  The `try` block wraps only
`json.loads`; the Scoring Client call sits outside it, so an upstream
exception propagates unchanged. -/
def llm_map_description_to_filters (loads : String → Option Json)
    (known : List (String × List String)) (chatResult : Except PyErr String) :
    Except PyErr MappedFilters :=
  match chatResult with
  | .error e => .error e
  | .ok txt =>
    match loads (pyStrip txt) with
    | none => .ok ⟨[], [], []⟩
    | some data => mapperValidate known data

/-- C2 (counterexample): when the Scoring Client call itself errors or
times out, the mapper does not substitute the empty mapping — the
exception propagates to the caller. -/
theorem C2_upstream_error_propagates :
    llm_map_description_to_filters (fun _ => none) [] (.error .upstream)
      = .error .upstream := rfl

/-- C2 (amended): a reply that is not decodable JSON degrades to
`{tags: {}, keywords: [], alt_queries: []}` without raising, but an
exception of the Scoring Client call itself (timeout or API error)
propagates to the caller unchanged. -/
theorem C2_mapper_degradation (loads : String → Option Json)
    (known : List (String × List String)) :
    (∀ txt, loads (pyStrip txt) = none →
      llm_map_description_to_filters loads known (.ok txt) = .ok ⟨[], [], []⟩) ∧
    (∀ e, llm_map_description_to_filters loads known (.error e) = .error e) := by
  constructor
  · intro txt h
    simp only [llm_map_description_to_filters, h]
  · intro e; rfl

/-- C2 witness: the amended theorem applied at a concrete non-JSON reply
and a concrete upstream timeout. -/
theorem C2_mapper_degradation_witness :
    llm_map_description_to_filters (fun _ => none) [] (.ok "not json")
        = .ok ⟨[], [], []⟩ ∧
    llm_map_description_to_filters (fun _ => none) [] (.error .upstream)
        = .error .upstream :=
  ⟨(C2_mapper_degradation (fun _ => none) []).1 "not json" rfl,
   (C2_mapper_degradation (fun _ => none) []).2 .upstream⟩

/-! ### C4: taxonomy validation soundness -/

/-- Entries produced by a dict assignment are old entries or the
assigned pair. -/
lemma mem_dictAssign {m : List (String × List String)} {cat : String}
    {vals : List String} {e : String × List String}
    (h : e ∈ dictAssign m cat vals) : e ∈ m ∨ e = (cat, vals) := by
  unfold dictAssign at h
  split at h
  · rcases List.mem_map.mp h with ⟨kv, hkv, he⟩
    by_cases hc : (kv.1 == cat) = true
    · right; rw [hc] at he; simp at he; exact he.symm
    · left; rw [Bool.not_eq_true] at hc; rw [hc] at he; simp at he; exact he ▸ hkv
  · rcases List.mem_append.mp h with h | h
    · exact Or.inl h
    · right; simpa using h

/-- A single validation step preserves the taxonomy-soundness invariant
of the accumulator. -/
lemma validateStep_sound {known acc : List (String × List String)}
    {cat : String} {vals : Json}
    (hacc : ∀ e ∈ acc, ∃ kvals, known.lookup e.1 = some kvals ∧
      ∀ v ∈ e.2, kvals.contains v = true) :
    ∀ e ∈ validateStep known acc cat vals, ∃ kvals, known.lookup e.1 = some kvals ∧
      ∀ v ∈ e.2, kvals.contains v = true := by
  intro e he
  unfold validateStep at he
  split at he
  · rename_i kvals elems hk
    dsimp only at he
    split at he
    · exact hacc e he
    · rcases mem_dictAssign he with h | h
      · exact hacc e h
      · subst h
        exact ⟨kvals, hk, fun v hv' => (List.mem_filter.mp hv').2⟩
  · exact hacc e he

/-- Every entry accumulated by the validation loop either was already in
the accumulator or pairs a known category with values all drawn from
that category's known value list. -/
lemma validateTags_sound (known : List (String × List String)) :
    ∀ (items : List (String × Json)) (acc : List (String × List String)),
      (∀ e ∈ acc, ∃ kvals, known.lookup e.1 = some kvals ∧
        ∀ v ∈ e.2, kvals.contains v = true) →
      ∀ e ∈ validateTags known items acc, ∃ kvals, known.lookup e.1 = some kvals ∧
        ∀ v ∈ e.2, kvals.contains v = true := by
  intro items
  induction items with
  | nil => intro acc hacc e he; exact hacc e he
  | cons item rest ih =>
    intro acc hacc e he
    rcases item with ⟨cat, vals⟩
    rw [validateTags] at he
    exact ih _ (validateStep_sound hacc) e he

/-- C4: every (category, value) pair in the mapper's validated `tags`
comes from the known taxonomy — out-of-taxonomy categories and values
proposed by the model are discarded. -/
theorem C4_mapper_tags_in_taxonomy (loads : String → Option Json)
    (known : List (String × List String)) (chatResult : Except PyErr String)
    (m : MappedFilters)
    (h : llm_map_description_to_filters loads known chatResult = .ok m) :
    ∀ e ∈ m.tags, ∃ kvals, known.lookup e.1 = some kvals ∧
      ∀ v ∈ e.2, kvals.contains v = true := by
  unfold llm_map_description_to_filters at h
  rcases chatResult with e | txt
  · cases h
  · dsimp only at h
    rcases hl : loads (pyStrip txt) with _ | data
    · rw [hl] at h
      injection h with h
      subst h
      intro e he; cases he
    · rw [hl] at h
      unfold mapperValidate at h
      rcases data with _ | _ | _ | _ | _ | fields
      case obj =>
        dsimp only at h
        rcases htags : jsonGetOr fields "tags" (.obj []) with _ | _ | _ | _ | _ | tagItems
        all_goals rw [htags] at h
        case obj =>
          dsimp only [bind, Except.bind] at h
          rcases hkw : (jsonGetOr fields "keywords" (.arr [])).iterElems with e₁ | kws
          all_goals rw [hkw] at h
          · cases h
          · rcases hal : (jsonGetOr fields "alt_queries" (.arr [])).iterElems with e₂ | alts
            all_goals rw [hal] at h
            · cases h
            · injection h with h
              subst h
              exact validateTags_sound known tagItems [] (by intro e he; cases he)
        all_goals cases h
      all_goals cases h

/-- C4 witness: the theorem applied to a concrete model reply proposing
one in-taxonomy value, one out-of-taxonomy value and one unknown
category; the surviving pair is within the taxonomy. -/
theorem C4_mapper_tags_in_taxonomy_witness :
    ∃ kvals, ([("city", ["kazan", "moscow"])] :
        List (String × List String)).lookup "city" = some kvals ∧
      ∀ v ∈ (["kazan"] : List String), kvals.contains v = true :=
  C4_mapper_tags_in_taxonomy
    (fun _ => some (.obj [("tags", .obj
        [("city", .arr [.str "kazan", .str "paris"]),
         ("planet", .arr [.str "mars"])])]))
    [("city", ["kazan", "moscow"])] (.ok "reply") _ rfl
    ("city", ["kazan"]) (by decide)

/-! ### Result cache (`bot/services/persona_search.py::TTLCache`)

Wall-clock instants (`time.time()`) and TTLs are embedded as rationals;
the store is the dict `self._store` as an insertion-ordered association
list.  All operations run under one lock, so they are pure state
transformers here. -/

structure TTLCacheEntry (V : Type) where
  expire_at : ℚ
  value : V
deriving DecidableEq, Repr

abbrev TTLCache (V : Type) := List (String × TTLCacheEntry V)

/-- `self._store.pop(key, None)`: remove the binding. -/
def cacheEvict {V : Type} (st : TTLCache V) (key : String) : TTLCache V :=
  st.filter (fun kv => kv.1 != key)

/-- Dict assignment `self._store[key] = entry` (replace in place or
append). -/
def cacheAssign {V : Type} (st : TTLCache V) (key : String)
    (e : TTLCacheEntry V) : TTLCache V :=
  if (st.lookup key).isSome then
    st.map (fun kv => if kv.1 == key then (key, e) else kv)
  else st ++ [(key, e)]

/-- `TTLCache.get`: a missing key is a miss; an entry with
`expire_at < now` is popped and reported a miss; otherwise the value is
returned and the store untouched. -/
def TTLCache.get {V : Type} (st : TTLCache V) (key : String) (now : ℚ) :
    Option V × TTLCache V :=
  match st.lookup key with
  | none => (none, st)
  | some e => if e.expire_at < now then (none, cacheEvict st key) else (some e.value, st)

/-- `TTLCache.set`: unconditionally overwrite, stamping
`expire_at = time.time() + ttl_s`. -/
def TTLCache.set {V : Type} (st : TTLCache V) (key : String) (value : V)
    (ttl_s now : ℚ) : TTLCache V :=
  cacheAssign st key ⟨now + ttl_s, value⟩

/-- Looking up in the mapped (replace-in-place) store finds the
assigned entry, provided the key was present. -/
lemma lookup_map_replace {V : Type} (key : String) (e : TTLCacheEntry V) :
    ∀ (st : TTLCache V), (st.lookup key).isSome →
      (st.map (fun kv => if kv.1 == key then (key, e) else kv)).lookup key = some e := by
  intro st
  induction st with
  | nil => intro h; simp [List.lookup] at h
  | cons kv rest ih =>
    rcases kv with ⟨k₁, v₁⟩
    intro h
    by_cases hk : k₁ = key
    · have hbeq : (k₁ == key) = true := beq_iff_eq.mpr hk
      simp only [List.map_cons, hbeq, if_true, List.lookup_cons, beq_self_eq_true]
    · have hbeq : (k₁ == key) = false := beq_eq_false_iff_ne.mpr hk
      have hbeq' : (key == k₁) = false := beq_eq_false_iff_ne.mpr (Ne.symm hk)
      rw [List.lookup_cons] at h
      rw [hbeq'] at h
      simp only [List.map_cons, hbeq, Bool.false_eq_true, if_false, List.lookup_cons, hbeq']
      exact ih h

/-- Appending a fresh binding to a store missing the key makes it
findable. -/
lemma lookup_append_fresh {V : Type} (key : String) (e : TTLCacheEntry V) :
    ∀ (st : TTLCache V), st.lookup key = none →
      (st ++ [(key, e)]).lookup key = some e := by
  intro st
  induction st with
  | nil => intro _; simp [List.lookup]
  | cons kv rest ih =>
    rcases kv with ⟨k₁, v₁⟩
    intro h
    rw [List.lookup_cons] at h
    rcases hkk : (key == k₁) with _ | _
    · rw [hkk] at h
      rw [List.cons_append, List.lookup_cons, hkk]
      exact ih h
    · rw [hkk] at h
      simp at h

/-- Looking up right after an assignment finds the assigned entry. -/
lemma lookup_cacheAssign {V : Type} (st : TTLCache V) (key : String)
    (e : TTLCacheEntry V) : (cacheAssign st key e).lookup key = some e := by
  unfold cacheAssign
  split
  · exact lookup_map_replace key e st (by assumption)
  · rename_i h
    exact lookup_append_fresh key e st (Option.not_isSome_iff_eq_none.mp h)

/-- C5 (counterexample): `set(key, v, ttl=0)` followed by a `get` at the
same wall-clock instant is a hit, not the miss the claim requires: the
code misses only when `expire_at < now`, so `expire_at = now` still
returns the value. -/
theorem C5_ttl_zero_immediate_get_hits :
    ((TTLCache.set ([] : TTLCache Nat) "k" 7 0 0).get "k" 0).1 = some 7 := by
  unfold TTLCache.get TTLCache.set
  rw [lookup_cacheAssign]
  dsimp only
  rw [if_neg (by norm_num)]

/-- C5 (amended): `get` returns the stored value exactly when the
entry's `expire_at ≥ now`; when `expire_at < now` it evicts the entry
and misses; `set` always overwrites and stamps `expire_at = now + ttl`;
consequently `set(key, v, ttl=0)` followed by a `get` at any strictly
later instant misses. -/
theorem C5_cache_get_set (V : Type) :
    (∀ (st : TTLCache V) key now e, st.lookup key = some e →
      now ≤ e.expire_at → st.get key now = (some e.value, st)) ∧
    (∀ (st : TTLCache V) key now e, st.lookup key = some e →
      e.expire_at < now → st.get key now = (none, cacheEvict st key)) ∧
    (∀ (st : TTLCache V) key now, st.lookup key = none →
      st.get key now = (none, st)) ∧
    (∀ (st : TTLCache V) key value ttl now,
      (st.set key value ttl now).lookup key = some ⟨now + ttl, value⟩) ∧
    (∀ (st : TTLCache V) key value now later, now < later →
      ((st.set key value 0 now).get key later).1 = none) := by
  refine ⟨?_, ?_, ?_, ?_, ?_⟩
  · intro st key now e he hle
    simp only [TTLCache.get, he]
    rw [if_neg (not_lt.mpr hle)]
  · intro st key now e he hlt
    simp only [TTLCache.get, he]
    rw [if_pos hlt]
  · intro st key now he
    simp only [TTLCache.get, he]
  · intro st key value ttl now
    exact lookup_cacheAssign st key _
  · intro st key value now later hlt
    unfold TTLCache.get TTLCache.set
    rw [lookup_cacheAssign]
    dsimp only
    rw [if_pos (show now + 0 < later by simpa using hlt)]

/-- C5 witness: the amended theorem applied at concrete instants — a hit
at `now = expire_at`, a post-expiry evicting miss, a fresh stamp, and a
miss one tick after a `ttl = 0` set. -/
theorem C5_cache_get_set_witness :
    (TTLCache.get [("k", ⟨5, 7⟩)] "k" 5 = (some 7, [("k", ⟨5, 7⟩)])) ∧
    (TTLCache.get [("k", (⟨5, 7⟩ : TTLCacheEntry Nat))] "k" 6
      = (none, cacheEvict [("k", ⟨5, 7⟩)] "k")) ∧
    ((TTLCache.set ([] : TTLCache Nat) "k" 7 10 2).lookup "k" = some ⟨12, 7⟩) ∧
    (((TTLCache.set ([] : TTLCache Nat) "k" 7 0 2).get "k" 3).1 = none) := by
  refine ⟨?_, ?_, ?_, ?_⟩
  · exact (C5_cache_get_set Nat).1 _ "k" 5 ⟨5, 7⟩ rfl (by norm_num)
  · exact (C5_cache_get_set Nat).2.1 _ "k" 6 ⟨5, 7⟩ rfl (by norm_num)
  · have h := (C5_cache_get_set Nat).2.2.2.1 ([] : TTLCache Nat) "k" 7 10 2
    norm_num at h
    exact h
  · exact (C5_cache_get_set Nat).2.2.2.2 [] "k" 7 2 3 (by norm_num)

/-! ### Relevance ranker (`llm_rerank` / `_rerank_async`)

`chat/talk.py::llm_rerank` and
`bot/services/persona_search.py::_rerank_async` score each candidate
with one Scoring Client call, substitute `0.0` when the call raises or
`float()` fails, stable-sort descending by score and return the first
`top_k`.  Scores (Python floats) are embedded as an arbitrary linear
order with a zero; `float()` is the library boundary `toNum`.  Python's
`list.sort(key=..., reverse=True)` is a stable descending sort, which is
`insertionSort` by the relation `y.1 ≤ x.1`. -/

/-- Descending-by-score order on scored items (ties compare equal both
ways, so a stable sort preserves their input order). -/
def scoreDescRel {S α : Type} [LinearOrder S] (x y : S × α) : Prop :=
  y.1 ≤ x.1

instance {S α : Type} [LinearOrder S] :
    DecidableRel (scoreDescRel (S := S) (α := α)) :=
  fun x y => inferInstanceAs (Decidable (y.1 ≤ x.1))

instance {S α : Type} [LinearOrder S] :
    IsTotal (S × α) scoreDescRel :=
  ⟨fun a b => le_total b.1 a.1⟩

instance {S α : Type} [LinearOrder S] :
    IsTrans (S × α) scoreDescRel :=
  ⟨fun _ _ _ hab hbc => le_trans hbc hab⟩

/-- The per-candidate score.  The `try` wraps both the call and the
`float(...)` conversion: a raised call or a non-numeric reply yields
`0.0`.  The reply is cleaned as `str(txt).replace(",", ".").strip()`. -/
def rerank_score {S : Type} [LinearOrder S] [Zero S]
    (chatFn : Persona → Except PyErr String) (toNum : String → Option S)
    (p : Persona) : S :=
  match chatFn p with
  | .error _ => 0
  | .ok txt =>
    match toNum (pyStrip (pyReplaceChar ',' '.' txt)) with
    | none => 0
    | some s => s

/-- The scoring loop: one Scoring Client request per candidate,
accumulating `(score, persona)` pairs and the number of requests
issued. -/
def rerank_loop {S : Type} [LinearOrder S] [Zero S]
    (chatFn : Persona → Except PyErr String) (toNum : String → Option S)
    (personas : List Persona) : List (S × Persona) × Nat :=
  personas.foldl
    (fun acc p => (acc.1 ++ [(rerank_score chatFn toNum p, p)], acc.2 + 1))
    ([], 0)

/-- `llm_rerank`: score all candidates, stable-sort descending, return
the first `top_k` (second component: requests issued). -/
def llm_rerank {S : Type} [LinearOrder S] [Zero S]
    (chatFn : Persona → Except PyErr String) (toNum : String → Option S)
    (personas : List Persona) (top_k : Nat) : List Persona × Nat :=
  let scored := (rerank_loop chatFn toNum personas).1
  let sorted := scored.insertionSort scoreDescRel
  ((sorted.take top_k).map (·.2), (rerank_loop chatFn toNum personas).2)

/-- The scoring loop is the map of the score over the candidates, one
request each. -/
lemma rerank_loop_eq {S : Type} [LinearOrder S] [Zero S]
    (chatFn : Persona → Except PyErr String) (toNum : String → Option S)
    (personas : List Persona) :
    rerank_loop chatFn toNum personas
      = (personas.map (fun p => (rerank_score chatFn toNum p, p)), personas.length) := by
  have key : ∀ (l : List Persona) (acc : List (S × Persona) × Nat),
      l.foldl (fun acc p => (acc.1 ++ [(rerank_score chatFn toNum p, p)], acc.2 + 1)) acc
        = (acc.1 ++ l.map (fun p => (rerank_score chatFn toNum p, p)), acc.2 + l.length) := by
    intro l
    induction l with
    | nil => intro acc; simp
    | cons p rest ih =>
      intro acc
      rw [List.foldl_cons, ih]
      rw [Prod.mk.injEq]
      exact ⟨by simp, by rw [List.length_cons]; omega⟩
  unfold rerank_loop
  rw [key]
  simp

/-- C3: a candidate whose scoring call errors (or whose reply fails
numeric conversion) is scored `0.0` and is never dropped from the
ranking; the result is the scored candidates stable-sorted descending by
score (ties keep input order) and truncated to the first `top_k`; and
with zero input candidates no scoring requests are issued. -/
theorem C3_reranker_degrades_sorts_truncates
    {S : Type} [LinearOrder S] [Zero S]
    (chatFn : Persona → Except PyErr String) (toNum : String → Option S)
    (personas : List Persona) (top_k : Nat) :
    ((rerank_loop chatFn toNum personas).2 = personas.length ∧
      (personas = [] → llm_rerank chatFn toNum personas top_k = ([], 0))) ∧
    (∀ p e, chatFn p = .error e → rerank_score chatFn toNum p = 0) ∧
    (∀ p txt, chatFn p = .ok txt → toNum (pyStrip (pyReplaceChar ',' '.' txt)) = none →
      rerank_score chatFn toNum p = 0) ∧
    (∀ p ∈ personas,
      p ∈ (((rerank_loop chatFn toNum personas).1.insertionSort scoreDescRel).map (·.2)) ∧
      (personas.length ≤ top_k → p ∈ (llm_rerank chatFn toNum personas top_k).1)) ∧
    List.Sorted (scoreDescRel (S := S))
      ((rerank_loop chatFn toNum personas).1.insertionSort scoreDescRel) ∧
    (∀ x y : S × Persona, scoreDescRel x y →
      [x, y].Sublist (rerank_loop chatFn toNum personas).1 →
      [x, y].Sublist ((rerank_loop chatFn toNum personas).1.insertionSort scoreDescRel)) ∧
    (llm_rerank chatFn toNum personas top_k).1
      = (((rerank_loop chatFn toNum personas).1.insertionSort scoreDescRel).take top_k).map (·.2) := by
  have hperm := List.perm_insertionSort (scoreDescRel (S := S))
    (rerank_loop chatFn toNum personas).1
  refine ⟨⟨?_, ?_⟩, ?_, ?_, ?_, ?_, ?_, ?_⟩
  · rw [rerank_loop_eq]
  · intro h; subst h; simp [llm_rerank, rerank_loop]
  · intro p e h; unfold rerank_score; rw [h]
  · intro p txt h hnum; unfold rerank_score; rw [h]; dsimp only; rw [hnum]
  · intro p hp
    have hmem : (rerank_score chatFn toNum p, p) ∈ (rerank_loop chatFn toNum personas).1 := by
      rw [rerank_loop_eq]
      exact List.mem_map.mpr ⟨p, hp, rfl⟩
    have hmem' : (rerank_score chatFn toNum p, p)
        ∈ (rerank_loop chatFn toNum personas).1.insertionSort scoreDescRel :=
      hperm.mem_iff.mpr hmem
    constructor
    · exact List.mem_map.mpr ⟨_, hmem', rfl⟩
    · intro hlen
      have hlen' : ((rerank_loop chatFn toNum personas).1.insertionSort scoreDescRel).length
          ≤ top_k := by
        rw [hperm.length_eq, rerank_loop_eq]
        simpa using hlen
      unfold llm_rerank
      dsimp only
      rw [List.take_of_length_le hlen']
      exact List.mem_map.mpr ⟨_, hmem', rfl⟩
  · exact List.sorted_insertionSort _ _
  · intro x y hxy hsub
    exact List.pair_sublist_insertionSort hxy hsub
  · rfl

/-- C3 witness: three concrete candidates — one erroring call, one
non-numeric reply, one scored 2 — are all ranked (the failures at score
0, in stable input order), and the empty candidate list issues zero
requests. -/
theorem C3_reranker_witness :
    (rerank_loop (S := Int)
        (fun p => if p.persona_id = "a" then .ok "2" else .error .upstream)
        (fun s => s.toInt?) [] ).2 = 0 ∧
    rerank_score (S := Int)
        (fun p => if p.persona_id = "a" then .ok "2" else .error .upstream)
        (fun s => s.toInt?) ⟨"b", "B", ""⟩ = 0 ∧
    rerank_score (S := Int)
        (fun _ => .ok "zzz") (fun _ => none) ⟨"c", "C", ""⟩ = 0 ∧
    (⟨"b", "B", ""⟩ : Persona) ∈ (llm_rerank (S := Int)
        (fun p => if p.persona_id = "a" then .ok "2" else .error .upstream)
        (fun s => s.toInt?) [⟨"a", "A", ""⟩, ⟨"b", "B", ""⟩] 5).1 := by
  refine ⟨?_, ?_, ?_, ?_⟩
  · exact ((C3_reranker_degrades_sorts_truncates _ _ [] 5).1).1
  · exact (C3_reranker_degrades_sorts_truncates _ _ [] 5).2.1 ⟨"b", "B", ""⟩ .upstream rfl
  · exact (C3_reranker_degrades_sorts_truncates
        (fun _ => .ok "zzz") (fun _ => none) [] 5).2.2.1 ⟨"c", "C", ""⟩ "zzz" rfl rfl
  · exact (((C3_reranker_degrades_sorts_truncates _ _
        [⟨"a", "A", ""⟩, ⟨"b", "B", ""⟩] 5).2.2.2.1 ⟨"b", "B", ""⟩ (by decide)).2
        (by decide))

/-! ### Lexical candidate retriever (`fts_sanitize_query`, `fts_candidates`)

The sanitizer is `s = query.lower()`, then
`re.sub(r"[^0-9A-Za-zА-Яа-яЁё\\s]+", " ", s)`, then whitespace
tokenization, `*`-suffixing and `" OR "` joining.  The regex pattern is
a RAW Python string, so its `\\s` is an ESCAPED LITERAL BACKSLASH
followed by a (redundant, already in `a-z`) letter `s` — not the
whitespace class the docstring intends: backslashes are kept by the
character class, while whitespace is replaced like punctuation (which
still tokenizes correctly, since the replacement is a space). -/

/-- Characters the `re.sub` character class keeps: digits, ASCII
letters, Cyrillic `А`–`я` (U+0410–U+044F) with `Ё`/`ё`, and — due to the
double-escape — the backslash. -/
def keepChar (c : Char) : Bool :=
  c.isDigit || ('A' ≤ c && c ≤ 'Z') || ('a' ≤ c && c ≤ 'z')
  || (0x410 ≤ c.toNat && c.toNat ≤ 0x44F)
  || c.toNat == 0x401 || c.toNat == 0x451
  || c == '\\'

/-- `chat/talk.py::fts_sanitize_query`.  Replacing every non-kept run
with one space and then whitespace-splitting is replaced-run-for-run
equivalent to replacing each non-kept character with a space, since the
splitter drops empties. -/
def fts_sanitize_query (query : String) : String :=
  let s := pyLower query
  let replaced := s.data.map (fun c => if keepChar c then c else ' ')
  let tokens := splitWSF (replaced.length + 1) replaced
  if tokens.isEmpty then ""
  else String.intercalate " OR " (tokens.map (fun t => String.mk t ++ "*"))

/-- `chat/talk.py::fts_candidates` over an abstract FTS index.  The
second component counts `MATCH` queries issued: an empty sanitized
query returns `[]` and issues none. -/
def fts_candidates (index : String → Nat → List Persona) (query : String)
    (k : Nat) : List Persona × Nat :=
  let safe := fts_sanitize_query query
  if safe = "" then ([], 0) else (index safe k, 1)

/-- C7 (code bug): a lone backslash survives the sanitizer and is sent
to the index inside the `MATCH` string (`"\*"` is not a valid FTS5
bareword, so the store raises), contradicting the claim (and the
function's own docstring) that punctuation is stripped and the query is
always syntactically valid.  Ordinary punctuation-only input does
return `""` with zero index queries, and ordinary text is tokenized,
starred and OR-joined as claimed. -/
theorem C7_backslash_survives_sanitizer :
    fts_sanitize_query "\\" = "\\*" ∧
    fts_sanitize_query "хочу, маму!" = "хочу* OR маму*" ∧
    fts_sanitize_query "?!." = "" ∧
    (∀ index k, fts_candidates index "?!." k = ([], 0)) ∧
    (∀ index k, fts_candidates index "\\" k = (index "\\*" k, 1)) := by
  refine ⟨rfl, rfl, rfl, ?_, ?_⟩
  · intro index k; rfl
  · intro index k; rfl

/-! ### Persona search service (`bot/services/persona_search.py`) and the
CLI fallback (`chat/talk.py::search_by_description_with_fallback`)

The external collaborators — the FTS index, the Scoring Client (one
outcome per mapping description, one per (query, candidate) scoring
pair), `json.loads` and `float()` — are carried in a `SearchEnv`. -/

/-- `chat/talk.py::db_taxonomy`: `{category -> set(values)}` built from
the distinct `persona_tags` rows (insertion-ordered, set semantics via
first-occurrence dedup). -/
def taxInsert (m : List (String × List String)) (cat v : String) :
    List (String × List String) :=
  match m.lookup cat with
  | none => m ++ [(cat, [v])]
  | some vs =>
    if vs.contains v then m
    else m.map (fun kv => if kv.1 == cat then (cat, vs ++ [v]) else kv)

def db_taxonomy (tagdb : TagDB) : List (String × List String) :=
  tagdb.foldl (fun m r => taxInsert m r.2.1 r.2.2) []

/-- `chat/talk.py::tags_for_persona`, restricted to one category: the
values tagged to `pid` under `cat`. -/
def tagsForPersonaCat (tagdb : TagDB) (pid cat : String) : List String :=
  (tagdb.filter (fun t => t.1 == pid && t.2.1 == cat)).map (fun t => t.2.2)

/-- `any(w in q for w in ws)`. -/
def kwAny (ws : List String) (q : String) : Bool :=
  ws.any (fun w => containsSub w q)

/-- `res.setdefault(k, []); res[k].extend(vs)` — also covers the plain
assignment `res[k] = vs` when `k` is absent. -/
def extendKey (m : List (String × List String)) (k : String)
    (vs : List String) : List (String × List String) :=
  match m.lookup k with
  | none => m ++ [(k, vs)]
  | some old => m.map (fun kv => if kv.1 == k then (k, old ++ vs) else kv)

/-- `list({x for x in v})`: value dedup.  Python materializes the set in
unspecified order; first-occurrence order is used here, which is
indistinguishable downstream (values are only tested for membership /
intersection). -/
def dedupAux (seen : List String) : List String → List String
  | [] => []
  | v :: vs =>
    if seen.contains v then dedupAux seen vs
    else v :: dedupAux (seen ++ [v]) vs

def dedupFirst (l : List String) : List String := dedupAux [] l

/-- The gender block of `_infer_hard_filters` (`res["gender"] = [...]`
on a fresh dict is assignment-to-absent-key, i.e. `extendKey`). -/
def inferGender (q : String) : List (String × List String) :=
  if kwAny ["девушк", "женщин", "женск", "девчонк"] q then
    extendKey [] "gender" ["female"]
  else if kwAny ["парн", "юнош", "мужчин", "мальчик"] q then
    extendKey [] "gender" ["male"]
  else []

/-- The three age blocks (`setdefault` + `extend`/`append`). -/
def inferAgeYoung (q : String) (m : List (String × List String)) :
    List (String × List String) :=
  if kwAny ["молод", "юн", "студент", "школьн"] q then
    extendKey m "age" ["18-24", "15-34"]
  else m

def inferAgeTeen (q : String) (m : List (String × List String)) :
    List (String × List String) :=
  if kwAny ["подрост", "тинейдж"] q then extendKey m "age" ["15-24"] else m

def inferAgeAdult (q : String) (m : List (String × List String)) :
    List (String × List String) :=
  if kwAny ["взросл"] q then extendKey m "age" ["25-34", "35-44"] else m

/-- `PersonaSearchService._infer_hard_filters`: keyword-derived hard
constraints, computed before any model call, with per-category value
dedup at the end. -/
def infer_hard_filters (query : String) : List (String × List String) :=
  let q := pyLower query
  (inferAgeAdult q (inferAgeTeen q (inferAgeYoung q (inferGender q)))).map
    (fun kv => (kv.1, dedupFirst kv.2))

/-- The per-profile test of `_apply_hard_filter`: for every constrained
category the profile's tag values must intersect the allowed set.  The
source writes the `age` branch separately, but both branches perform
the same intersection test. -/
def hardPasses (tagdb : TagDB) (hard : List (String × List String))
    (p : Persona) : Bool :=
  hard.all (fun cv =>
    if cv.2.isEmpty then true
    else if cv.1 == "age" then
      cv.2.any (fun v => (tagsForPersonaCat tagdb p.persona_id cv.1).contains v)
    else
      cv.2.any (fun v => (tagsForPersonaCat tagdb p.persona_id cv.1).contains v))

/-- `_apply_hard_filter` (nested in `search_by_description_fast`). -/
def apply_hard_filter (tagdb : TagDB) (hard : List (String × List String))
    (ps : List Persona) : List Persona :=
  if hard.isEmpty then ps else ps.filter (hardPasses tagdb hard)

/-- `combined[p.persona_id] = p` over a Python dict: first-insertion
position, last value wins. -/
def dictUpdatePersona (m : List (String × Persona)) (p : Persona) :
    List (String × Persona) :=
  if (m.lookup p.persona_id).isSome then
    m.map (fun kv => if kv.1 == p.persona_id then (p.persona_id, p) else kv)
  else m ++ [(p.persona_id, p)]

/-- `list(combined.values())`: de-duplication by profile id. -/
def dedup_by_id (ps : List Persona) : List Persona :=
  (ps.foldl dictUpdatePersona []).map (·.2)

/-- External collaborators of one search call.  `mapChat` is the
Scoring Client outcome for the mapping prompt built from the stripped
description; `scoreChat` the outcome per (stripped query, candidate);
`loads` and `toNum` are `json.loads` and `float()`. -/
structure SearchEnv (S : Type) where
  personas : List Persona
  tagdb : TagDB
  indexFn : String → Nat → List Persona
  mapChat : String → Except PyErr String
  scoreChat : String → Persona → Except PyErr String
  loads : String → Option Json
  toNum : String → Option S

/-- `tag_hits` of `chat/talk.py::search_by_description_with_fallback`:
the validated tags fed to the tag search as `include_any` (limit 500),
skipped entirely when empty. -/
def cli_tag_hits {S : Type} (env : SearchEnv S) (mapped : MappedFilters) :
    List Persona :=
  if !mapped.tags.isEmpty then
    search_personas_advanced env.personas env.tagdb [] mapped.tags [] none 500
  else []

/-- `alt_hits`: the first four `alt_queries` fed back through
`fts_candidates` with `k = max(10, k_fts // 2)`. -/
def alt_query_hits {S : Type} (env : SearchEnv S) (mapped : MappedFilters)
    (k_fts : Nat) : List Persona :=
  (mapped.alt_queries.take 4).flatMap
    (fun alt => (fts_candidates env.indexFn alt (max 10 (k_fts / 2))).1)

/-- The fallback candidate set of
`chat/talk.py::search_by_description_with_fallback`: tag hits and
alt-query hits unioned and de-duplicated by profile id. -/
def fallback_candidates {S : Type} (env : SearchEnv S)
    (mapped : MappedFilters) (k_fts : Nat) : List Persona :=
  dedup_by_id (cli_tag_hits env mapped ++ alt_query_hits env mapped k_fts)

/-- `tag_hits` of the fast path (limit 400). -/
def fast_tag_hits {S : Type} (env : SearchEnv S) (mapped : MappedFilters) :
    List Persona :=
  if !mapped.tags.isEmpty then
    search_personas_advanced env.personas env.tagdb [] mapped.tags [] none 400
  else []

/-- The fallback candidate set of `search_by_description_fast`: same
shape as the CLI one (limit 400), except that when any hard filter is
present the tag hits are RECOMPUTED with the hard filters as
`include_all` — overwriting, not combining with, the mapper's
`include_any` hits. -/
def fast_fallback_candidates {S : Type} (env : SearchEnv S)
    (hard : List (String × List String)) (mapped : MappedFilters)
    (k_fts : Nat) : List Persona :=
  let include_all := hard.filter (fun kv => !kv.2.isEmpty)
  let tag_hits2 :=
    if !include_all.isEmpty then
      search_personas_advanced env.personas env.tagdb include_all [] [] none 400
    else fast_tag_hits env mapped
  dedup_by_id (tag_hits2 ++ alt_query_hits env mapped k_fts)

/-- The cache key `f"nl2:{query.strip().lower()}:{k_fts}:{top_k}"`. -/
def nlKey (query : String) (k_fts top_k : Nat) : String :=
  "nl2:" ++ pyLower (pyStrip query) ++ ":" ++ toString k_fts ++ ":" ++ toString top_k

/-- Outcome of one `search_by_description_fast` call: the result (or
the propagated exception), the cache afterwards, and the number of
Scoring Client calls issued. -/
structure FastResult where
  result : Except PyErr (List Persona)
  cache : TTLCache (List Persona)
  llmCalls : Nat

/-- `PersonaSearchService.search_by_description_fast`.  Cache hit (keys
under `nl2:` always hold lists, so `isinstance(cached, list)` passes)
returns immediately; otherwise: hard filters, FTS candidates,
post-filter; on empty — one mapping call (whose exception propagates)
and the fallback set, post-filtered again; an empty candidate set
returns `[]` WITHOUT caching; otherwise the reranked list is computed
(one scoring call per candidate) and cached for 1800 s. -/
def search_by_description_fast {S : Type} [LinearOrder S] [Zero S]
    (env : SearchEnv S) (cache : TTLCache (List Persona)) (now : ℚ)
    (query : String) (k_fts top_k : Nat) : FastResult :=
  let key := nlKey query k_fts top_k
  match TTLCache.get cache key now with
  | (some v, cache₁) => ⟨.ok v, cache₁, 0⟩
  | (none, cache₁) =>
    let hard := infer_hard_filters query
    let finish : List Persona → Nat → FastResult := fun cands calls =>
      if cands.isEmpty then ⟨.ok [], cache₁, calls⟩
      else
        let rn := llm_rerank (env.scoreChat (pyStrip query)) env.toNum cands top_k
        ⟨.ok rn.1, TTLCache.set cache₁ key rn.1 1800 now, calls + rn.2⟩
    let cands₁ := apply_hard_filter env.tagdb hard
      (fts_candidates env.indexFn query k_fts).1
    if cands₁.isEmpty then
      match llm_map_description_to_filters env.loads (db_taxonomy env.tagdb)
          (env.mapChat (pyStrip query)) with
      | .error e => ⟨.error e, cache₁, 1⟩
      | .ok mapped =>
        finish (apply_hard_filter env.tagdb hard
          (fast_fallback_candidates env hard mapped k_fts)) 1
    else finish cands₁ 0

/-! ### C9: dedup-by-id correctness of the fallback union -/

lemma lookup_none_not_mem {β : Type} (k : String) :
    ∀ (m : List (String × β)), m.lookup k = none → k ∉ m.map (·.1) := by
  intro m
  induction m with
  | nil => intro _ h; simp at h
  | cons kv rest ih =>
    rcases kv with ⟨k₁, v₁⟩
    intro h hmem
    rw [List.lookup_cons] at h
    rcases hkk : (k == k₁) with _ | _
    · rw [hkk] at h
      rcases List.mem_cons.mp hmem with h' | h'
      · exact absurd (beq_iff_eq.mpr h') (by simp [hkk])
      · exact ih h h'
    · rw [hkk] at h
      simp at h

lemma lookup_isSome_mem {β : Type} (k : String) :
    ∀ (m : List (String × β)), (m.lookup k).isSome → k ∈ m.map (·.1) := by
  intro m
  induction m with
  | nil => intro h; simp [List.lookup] at h
  | cons kv rest ih =>
    rcases kv with ⟨k₁, v₁⟩
    intro h
    rw [List.lookup_cons] at h
    rcases hkk : (k == k₁) with _ | _
    · rw [hkk] at h
      exact List.mem_cons_of_mem _ (ih h)
    · exact List.mem_cons.mpr (Or.inl (beq_iff_eq.mp hkk))

/-- A replace-in-place update leaves the key list unchanged. -/
lemma dictUpdate_keys_of_mem (m : List (String × Persona)) (p : Persona)
    (h : (m.lookup p.persona_id).isSome) :
    (dictUpdatePersona m p).map (·.1) = m.map (·.1) := by
  unfold dictUpdatePersona
  rw [if_pos h, List.map_map]
  apply List.map_congr_left
  intro kv _
  by_cases hk : (kv.1 == p.persona_id) = true
  · show (if kv.1 == p.persona_id then (p.persona_id, p) else kv).1 = kv.1
    rw [if_pos hk]
    exact (beq_iff_eq.mp hk).symm
  · show (if kv.1 == p.persona_id then (p.persona_id, p) else kv).1 = kv.1
    rw [if_neg hk]

/-- Every binding of an updated dict keys its own value's profile id,
provided the old dict did. -/
lemma dictUpdate_keyval (m : List (String × Persona)) (p : Persona)
    (h : ∀ kv ∈ m, kv.1 = kv.2.persona_id) :
    ∀ kv ∈ dictUpdatePersona m p, kv.1 = kv.2.persona_id := by
  intro kv hkv
  unfold dictUpdatePersona at hkv
  split at hkv
  · rcases List.mem_map.mp hkv with ⟨kv', hkv', he⟩
    by_cases hk : (kv'.1 == p.persona_id) = true
    · rw [if_pos hk] at he
      rw [← he]
    · rw [if_neg hk] at he
      rw [← he]
      exact h kv' hkv'
  · rcases List.mem_append.mp hkv with h' | h'
    · exact h kv h'
    · simp only [List.mem_singleton] at h'
      rw [h']

lemma dictUpdate_keys_nodup (m : List (String × Persona)) (p : Persona)
    (h : (m.map (·.1)).Nodup) :
    ((dictUpdatePersona m p).map (·.1)).Nodup := by
  by_cases hs : (m.lookup p.persona_id).isSome
  · rw [dictUpdate_keys_of_mem m p hs]
    exact h
  · have hnone : m.lookup p.persona_id = none := Option.not_isSome_iff_eq_none.mp hs
    unfold dictUpdatePersona
    rw [if_neg hs, List.map_append, List.nodup_append]
    refine ⟨h, by simp, ?_⟩
    intro a ha hb
    simp only [List.map_cons, List.map_nil, List.mem_singleton] at hb
    subst hb
    exact lookup_none_not_mem _ m hnone ha

lemma dictUpdate_keys_mem_iff (m : List (String × Persona)) (p : Persona)
    (pid : String) :
    pid ∈ (dictUpdatePersona m p).map (·.1)
      ↔ pid ∈ m.map (·.1) ∨ pid = p.persona_id := by
  by_cases hs : (m.lookup p.persona_id).isSome
  · rw [dictUpdate_keys_of_mem m p hs]
    constructor
    · exact Or.inl
    · rintro (h | h)
      · exact h
      · rw [h]; exact lookup_isSome_mem _ m hs
  · unfold dictUpdatePersona
    rw [if_neg hs, List.map_append]
    simp [List.mem_append]

lemma dictUpdate_vals (m : List (String × Persona)) (p : Persona) :
    ∀ kv ∈ dictUpdatePersona m p, kv ∈ m ∨ kv.2 = p := by
  intro kv hkv
  unfold dictUpdatePersona at hkv
  split at hkv
  · rcases List.mem_map.mp hkv with ⟨kv', hkv', he⟩
    by_cases hk : (kv'.1 == p.persona_id) = true
    · rw [if_pos hk] at he
      right; rw [← he]
    · rw [if_neg hk] at he
      left; rw [← he]; exact hkv'
  · rcases List.mem_append.mp hkv with h' | h'
    · exact Or.inl h'
    · right
      simp only [List.mem_singleton] at h'
      rw [h']

lemma fold_keyval (ps : List Persona) :
    ∀ (m : List (String × Persona)), (∀ kv ∈ m, kv.1 = kv.2.persona_id) →
      ∀ kv ∈ ps.foldl dictUpdatePersona m, kv.1 = kv.2.persona_id := by
  induction ps with
  | nil => intro m hm kv hkv; exact hm kv hkv
  | cons p rest ih =>
    intro m hm kv hkv
    rw [List.foldl_cons] at hkv
    exact ih _ (dictUpdate_keyval m p hm) kv hkv

lemma fold_keys_nodup (ps : List Persona) :
    ∀ (m : List (String × Persona)), (m.map (·.1)).Nodup →
      ((ps.foldl dictUpdatePersona m).map (·.1)).Nodup := by
  induction ps with
  | nil => intro m hm; exact hm
  | cons p rest ih =>
    intro m hm
    rw [List.foldl_cons]
    exact ih _ (dictUpdate_keys_nodup m p hm)

lemma fold_keys_mem_iff (ps : List Persona) :
    ∀ (m : List (String × Persona)) (pid : String),
      pid ∈ (ps.foldl dictUpdatePersona m).map (·.1)
        ↔ pid ∈ m.map (·.1) ∨ pid ∈ ps.map (·.persona_id) := by
  induction ps with
  | nil => intro m pid; simp
  | cons p rest ih =>
    intro m pid
    rw [List.foldl_cons, ih, dictUpdate_keys_mem_iff]
    simp only [List.map_cons, List.mem_cons]
    tauto

lemma fold_vals (ps : List Persona) :
    ∀ (m : List (String × Persona)), ∀ kv ∈ ps.foldl dictUpdatePersona m,
      kv ∈ m ∨ kv.2 ∈ ps := by
  induction ps with
  | nil => intro m kv hkv; exact Or.inl hkv
  | cons p rest ih =>
    intro m kv hkv
    rw [List.foldl_cons] at hkv
    rcases ih _ kv hkv with h | h
    · rcases dictUpdate_vals m p kv h with h' | h'
      · exact Or.inl h'
      · exact Or.inr (List.mem_cons.mpr (Or.inl h'))
    · exact Or.inr (List.mem_cons.mpr (Or.inr h))

/-- The ids of a dedup result are the fold's keys. -/
lemma dedup_by_id_ids (ps : List Persona) :
    (dedup_by_id ps).map (·.persona_id)
      = (ps.foldl dictUpdatePersona []).map (·.1) := by
  unfold dedup_by_id
  rw [List.map_map]
  apply List.map_congr_left
  intro kv h
  exact (fold_keyval ps [] (by simp) kv h).symm

lemma dedup_by_id_nodup (ps : List Persona) :
    ((dedup_by_id ps).map (·.persona_id)).Nodup := by
  rw [dedup_by_id_ids]
  exact fold_keys_nodup ps [] (by simp)

lemma dedup_by_id_mem_ids (ps : List Persona) (pid : String) :
    pid ∈ (dedup_by_id ps).map (·.persona_id) ↔ pid ∈ ps.map (·.persona_id) := by
  rw [dedup_by_id_ids, fold_keys_mem_iff]
  simp

lemma dedup_by_id_sub (ps : List Persona) :
    ∀ p ∈ dedup_by_id ps, p ∈ ps := by
  intro p hp
  unfold dedup_by_id at hp
  rcases List.mem_map.mp hp with ⟨kv, hkv, he⟩
  rcases fold_vals ps [] kv hkv with h | h
  · cases h
  · rw [← he]; exact h

/-- C9 (amended): in the CLI fallback the validated tags are passed to
the tag search as `include_any` and each of the FIRST FOUR alt queries
is fed back into lexical retrieval (both baked into `cli_tag_hits` /
`alt_query_hits`); the candidate set is their union de-duplicated by
profile id — no id twice, exactly the union's ids, every survivor drawn
from the union.  In the bot's fast path, whenever a non-trivial
heuristic hard filter exists the tag hits are recomputed with it as
`include_all`, discarding the mapper's tags. -/
theorem C9_fallback_union_dedup {S : Type} (env : SearchEnv S)
    (mapped : MappedFilters) (k_fts : Nat) :
    ((fallback_candidates env mapped k_fts).map (·.persona_id)).Nodup ∧
    (∀ pid, pid ∈ (fallback_candidates env mapped k_fts).map (·.persona_id) ↔
      pid ∈ (cli_tag_hits env mapped ++ alt_query_hits env mapped k_fts).map (·.persona_id)) ∧
    (∀ p ∈ fallback_candidates env mapped k_fts,
      p ∈ cli_tag_hits env mapped ++ alt_query_hits env mapped k_fts) ∧
    (∀ hard, hard.filter (fun kv => !kv.2.isEmpty) ≠ [] →
      fast_fallback_candidates env hard mapped k_fts
        = dedup_by_id (search_personas_advanced env.personas env.tagdb
            (hard.filter (fun kv => !kv.2.isEmpty)) [] [] none 400
            ++ alt_query_hits env mapped k_fts)) := by
  refine ⟨dedup_by_id_nodup _, fun pid => dedup_by_id_mem_ids _ pid,
    dedup_by_id_sub _, ?_⟩
  intro hard hne
  unfold fast_fallback_candidates
  dsimp only
  rw [if_pos (by simpa using hne)]

def pFive : Persona := ⟨"p5", "T5", ""⟩

def env5 : SearchEnv Int where
  personas := []
  tagdb := []
  indexFn := fun q _ => if q = "a5*" then [pFive] else []
  mapChat := fun _ => .ok ""
  scoreChat := fun _ _ => .ok ""
  loads := fun _ => none
  toNum := fun _ => none

def mapped5 : MappedFilters := ⟨[], [], ["a1", "a2", "a3", "a4", "a5"]⟩

/-- C9 (counterexample): with five alt queries, only the first four are
fed back into lexical retrieval — a profile found only by the fifth alt
query is in the claimed union but absent from the code's candidate
set. -/
theorem C9_fifth_alt_query_dropped :
    pFive ∈ dedup_by_id (cli_tag_hits env5 mapped5 ++
      mapped5.alt_queries.flatMap
        (fun alt => (fts_candidates env5.indexFn alt (max 10 (50 / 2))).1)) ∧
    pFive ∉ fallback_candidates env5 mapped5 50 := by
  constructor
  · decide
  · decide

/-- C9 witness: the amended theorem's fast-path conjunct applied to a
concrete non-trivial hard filter. -/
theorem C9_fallback_union_dedup_witness :
    fast_fallback_candidates env5 [("gender", ["female"])] mapped5 50
      = dedup_by_id (search_personas_advanced env5.personas env5.tagdb
          ([("gender", ["female"])].filter (fun kv => !kv.2.isEmpty)) [] [] none 400
          ++ alt_query_hits env5 mapped5 50) :=
  (C9_fallback_union_dedup env5 mapped5 50).2.2.2 [("gender", ["female"])]
    (by decide)

/-! ### C6: the result cache over `search_by_description_fast` -/

/-- An unexpired entry under the call's normalized key short-circuits
the whole pipeline with zero Scoring Client calls. -/
lemma search_fast_hit {S : Type} [LinearOrder S] [Zero S] (env : SearchEnv S)
    (cache cache₁ : TTLCache (List Persona)) (now : ℚ) (q : String)
    (kf tk : Nat) (v : List Persona)
    (h : TTLCache.get cache (nlKey q kf tk) now = (some v, cache₁)) :
    search_by_description_fast env cache now q kf tk = ⟨.ok v, cache₁, 0⟩ := by
  simp only [search_by_description_fast]
  rw [h]

/-- C6 (amended): (a) any call finding an unexpired entry under its
normalized key returns the cached list with zero Scoring Client calls;
(b) a first call that misses and produces a NON-EMPTY result caches it
stamped `now + 1800`, and a repeat call whose query strips-and-lowers
to the same text, issued within the TTL window, returns that cached
result with zero Scoring Client calls.  (Empty results are returned
without caching — see the counterexample.) -/
theorem C6_repeat_within_ttl {S : Type} [LinearOrder S] [Zero S]
    (env : SearchEnv S) (c0 c0' c1 : TTLCache (List Persona)) (t1 t2 : ℚ)
    (q q' : String) (kf tk : Nat) (r : List Persona) (n : Nat) :
    (∀ v cache₁, TTLCache.get c1 (nlKey q' kf tk) t2 = (some v, cache₁) →
      search_by_description_fast env c1 t2 q' kf tk = ⟨.ok v, cache₁, 0⟩) ∧
    (TTLCache.get c0 (nlKey q kf tk) t1 = (none, c0') →
     search_by_description_fast env c0 t1 q kf tk = ⟨.ok r, c1, n⟩ →
     r ≠ [] →
     pyLower (pyStrip q') = pyLower (pyStrip q) →
     t2 ≤ t1 + 1800 →
     search_by_description_fast env c1 t2 q' kf tk = ⟨.ok r, c1, 0⟩) := by
  constructor
  · intro v cache₁ h
    exact search_fast_hit env c1 cache₁ t2 q' kf tk v h
  · intro hmiss h hr hnorm ht
    have hkey : nlKey q' kf tk = nlKey q kf tk := by
      unfold nlKey
      rw [hnorm]
    have hlk : c1.lookup (nlKey q kf tk) = some ⟨t1 + 1800, r⟩ := by
      simp only [search_by_description_fast] at h
      rw [hmiss] at h
      dsimp only at h
      split at h
      · -- FTS candidates empty: the mapper branch
        split at h
        · -- mapping chat raised: .error ≠ .ok
          rw [FastResult.mk.injEq] at h
          simp at h
        · -- mapped: the finish step
          split at h
          · -- fallback candidates empty: r = [] contradicts hr
            rw [FastResult.mk.injEq] at h
            exact absurd (Except.ok.inj h.1).symm hr
          · rw [FastResult.mk.injEq] at h
            rcases h with ⟨h1, h2, -⟩
            rw [Except.ok.injEq] at h1
            rw [← h2]
            unfold TTLCache.set
            rw [lookup_cacheAssign, h1]
      · -- FTS candidates non-empty: finish's identical condition was
        -- resolved by the same split, leaving the ranked branch
        rw [FastResult.mk.injEq] at h
        rcases h with ⟨h1, h2, -⟩
        rw [Except.ok.injEq] at h1
        rw [← h2]
        unfold TTLCache.set
        rw [lookup_cacheAssign, h1]
    have hget2 : TTLCache.get c1 (nlKey q' kf tk) t2 = (some r, c1) := by
      unfold TTLCache.get
      rw [hkey, hlk]
      dsimp only
      rw [if_neg (not_lt.mpr ht)]
    exact search_fast_hit env c1 c1 t2 q' kf tk r hget2

def env0 : SearchEnv Int where
  personas := []
  tagdb := []
  indexFn := fun _ _ => []
  mapChat := fun _ => .ok "reply"
  scoreChat := fun _ _ => .ok "1"
  loads := fun _ => some (Json.obj [])
  toNum := fun _ => some 1

/-- C6 (counterexample): a call that ends with no candidates returns
`[]` WITHOUT caching, so the identical repeat call inside the TTL
window re-runs the pipeline and issues a Scoring Client (mapping) call
again — not the zero new calls the claim requires. -/
theorem C6_empty_result_not_cached :
    search_by_description_fast env0 [] 0 "q" 40 12 = ⟨.ok [], [], 1⟩ ∧
    search_by_description_fast env0
        (search_by_description_fast env0 [] 0 "q" 40 12).cache 0 "q" 40 12
      = ⟨.ok [], [], 1⟩ :=
  ⟨rfl, rfl⟩

def pAlpha : Persona := ⟨"pa", "Alpha", "profile"⟩

def env1 : SearchEnv Int where
  personas := []
  tagdb := []
  indexFn := fun _ _ => [pAlpha]
  mapChat := fun _ => .ok "reply"
  scoreChat := fun _ _ => .ok "1"
  loads := fun _ => some (Json.obj [])
  toNum := fun _ => some 1

def c1ex : TTLCache (List Persona) :=
  TTLCache.set [] (nlKey "q" 40 12) [pAlpha] 1800 0

/-- C6 witness: a concrete first call at `t=0` finds and ranks one
profile (one scoring call), caching it; the amended theorem then gives
the repeat calls at `t=5` and `t=100` the cached result with zero
calls. -/
theorem C6_repeat_within_ttl_witness :
    search_by_description_fast env1 c1ex 5 "q" 40 12 = ⟨.ok [pAlpha], c1ex, 0⟩ ∧
    search_by_description_fast env1 c1ex 100 "q" 40 12 = ⟨.ok [pAlpha], c1ex, 0⟩ := by
  constructor
  · exact (C6_repeat_within_ttl env1 [] [] c1ex 0 5 "q" "q" 40 12 [pAlpha] 1).2
      rfl rfl (by simp) rfl (by norm_num)
  · apply (C6_repeat_within_ttl env1 [] [] c1ex 0 100 "q" "q" 40 12 [pAlpha] 1).1
    unfold c1ex TTLCache.get TTLCache.set
    rw [lookup_cacheAssign]
    dsimp only
    rw [if_neg (show ¬((0 : ℚ) + 1800 < 100) by norm_num)]

/-! ### C8: the heuristic post-filter of the merge step -/

lemma extendKey_vals_ne {m : List (String × List String)} {k : String}
    {vs : List String} (hm : ∀ kv ∈ m, kv.2 ≠ []) (hvs : vs ≠ []) :
    ∀ kv ∈ extendKey m k vs, kv.2 ≠ [] := by
  intro kv hkv
  unfold extendKey at hkv
  rcases h : m.lookup k with _ | old
  · rw [h] at hkv
    rcases List.mem_append.mp hkv with h' | h'
    · exact hm kv h'
    · simp only [List.mem_singleton] at h'
      rw [h']
      exact hvs
  · rw [h] at hkv
    rcases List.mem_map.mp hkv with ⟨kv', hkv', he⟩
    by_cases hk : (kv'.1 == k) = true
    · rw [if_pos hk] at he
      rw [← he]
      simp only [ne_eq, List.append_eq_nil]
      rintro ⟨-, h2⟩
      exact hvs h2
    · rw [if_neg hk] at he
      rw [← he]
      exact hm kv' hkv'

lemma inferGender_vals_ne (q : String) : ∀ kv ∈ inferGender q, kv.2 ≠ [] := by
  unfold inferGender
  split
  · exact extendKey_vals_ne (by simp) (by simp)
  · split
    · exact extendKey_vals_ne (by simp) (by simp)
    · simp

lemma inferAgeYoung_vals_ne (q : String) {m : List (String × List String)}
    (hm : ∀ kv ∈ m, kv.2 ≠ []) : ∀ kv ∈ inferAgeYoung q m, kv.2 ≠ [] := by
  unfold inferAgeYoung
  split
  · exact extendKey_vals_ne hm (by simp)
  · exact hm

lemma inferAgeTeen_vals_ne (q : String) {m : List (String × List String)}
    (hm : ∀ kv ∈ m, kv.2 ≠ []) : ∀ kv ∈ inferAgeTeen q m, kv.2 ≠ [] := by
  unfold inferAgeTeen
  split
  · exact extendKey_vals_ne hm (by simp)
  · exact hm

lemma inferAgeAdult_vals_ne (q : String) {m : List (String × List String)}
    (hm : ∀ kv ∈ m, kv.2 ≠ []) : ∀ kv ∈ inferAgeAdult q m, kv.2 ≠ [] := by
  unfold inferAgeAdult
  split
  · exact extendKey_vals_ne hm (by simp)
  · exact hm

lemma dedupFirst_ne {l : List String} (h : l ≠ []) : dedupFirst l ≠ [] := by
  match l with
  | [] => exact absurd rfl h
  | v :: vs => simp [dedupFirst, dedupAux]

/-- The per-category intersection test, without the vacuous `age`
distinction (both source branches compute the same intersection). -/
lemma hardPasses_iff (tagdb : TagDB) (hard : List (String × List String))
    (p : Persona) (hvals : ∀ kv ∈ hard, kv.2 ≠ []) :
    hardPasses tagdb hard p = true ↔
      ∀ kv ∈ hard, ∃ v ∈ kv.2, v ∈ tagsForPersonaCat tagdb p.persona_id kv.1 := by
  unfold hardPasses
  rw [List.all_eq_true]
  apply forall_congr'
  intro kv
  apply imp_congr_right
  intro hkv
  have hne : kv.2.isEmpty = false := by
    rcases h' : kv.2.isEmpty with _ | _
    · rfl
    · exact absurd (List.isEmpty_iff.mp h') (hvals kv hkv)
  rw [hne]
  simp only [Bool.false_eq_true, if_false, ite_self, List.any_eq_true]
  apply exists_congr
  intro v
  apply and_congr_right
  intro _
  exact List.elem_iff

/-- C8: the post-filter keeps a profile iff, for EVERY category of the
heuristic map, the profile's tag values for that category intersect the
allowed set — the `age` branch of the source performs the same
intersection test as the generic branch, so no category is stricter
than another; the heuristic producer only emits non-empty value lists;
and when the post-filter empties the fallback candidate set the search
returns an empty result with no relaxation (and no ranking calls). -/
theorem C8_post_filter_intersection {S : Type} [LinearOrder S] [Zero S] :
    (∀ (tagdb : TagDB) (hard : List (String × List String))
        (ps : List Persona) (p : Persona), hard ≠ [] →
        (∀ kv ∈ hard, kv.2 ≠ []) →
        (p ∈ apply_hard_filter tagdb hard ps ↔ p ∈ ps ∧
          ∀ kv ∈ hard, ∃ v ∈ kv.2,
            v ∈ tagsForPersonaCat tagdb p.persona_id kv.1)) ∧
    (∀ q, ∀ kv ∈ infer_hard_filters q, kv.2 ≠ []) ∧
    (∀ (env : SearchEnv S) (cache c0' : TTLCache (List Persona)) (now : ℚ)
        (q : String) (kf tk : Nat) (mapped : MappedFilters),
        TTLCache.get cache (nlKey q kf tk) now = (none, c0') →
        apply_hard_filter env.tagdb (infer_hard_filters q)
          (fts_candidates env.indexFn q kf).1 = [] →
        llm_map_description_to_filters env.loads (db_taxonomy env.tagdb)
          (env.mapChat (pyStrip q)) = .ok mapped →
        apply_hard_filter env.tagdb (infer_hard_filters q)
          (fast_fallback_candidates env (infer_hard_filters q) mapped kf) = [] →
        search_by_description_fast env cache now q kf tk = ⟨.ok [], c0', 1⟩) := by
  refine ⟨?_, ?_, ?_⟩
  · intro tagdb hard ps p hne hvals
    unfold apply_hard_filter
    rw [if_neg (by simpa [List.isEmpty_iff] using hne)]
    rw [List.mem_filter]
    exact and_congr_right (fun _ => hardPasses_iff tagdb hard p hvals)
  · intro q kv hkv
    unfold infer_hard_filters at hkv
    dsimp only at hkv
    rcases List.mem_map.mp hkv with ⟨kv', hkv', he⟩
    have hkv'ne : kv'.2 ≠ [] :=
      inferAgeAdult_vals_ne _ (inferAgeTeen_vals_ne _ (inferAgeYoung_vals_ne _
        (inferGender_vals_ne _))) kv' hkv'
    rw [← he]
    exact dedupFirst_ne hkv'ne
  · intro env cache c0' now q kf tk mapped hmiss h1 hmap h2
    simp only [search_by_description_fast]
    rw [hmiss]
    dsimp only
    rw [h1]
    simp only [List.isEmpty_nil, if_true]
    rw [hmap]
    dsimp only
    rw [h2]
    simp

/-- C8 witness: the theorem applied to a concrete tag store and filter
map (profile lacking the required tag is eliminated), to the concrete
query «молодые девушки» (whose inferred map has non-empty values), and
to a concrete pipeline run whose post-filter empties the result. -/
theorem C8_post_filter_intersection_witness :
    ((pAlpha ∈ apply_hard_filter [] [("gender", ["female"])] [pAlpha] ↔
       pAlpha ∈ [pAlpha] ∧ ∀ kv ∈ [("gender", ["female"])], ∃ v ∈ kv.2,
         v ∈ tagsForPersonaCat [] pAlpha.persona_id kv.1)) ∧
    (("gender", ["female"]) ∈ infer_hard_filters "молодые девушки" →
      (("gender", ["female"]) : String × List String).2 ≠ []) ∧
    search_by_description_fast env0 [] 0 "q" 40 12 = ⟨.ok [], [], 1⟩ := by
  refine ⟨?_, ?_, ?_⟩
  · exact (C8_post_filter_intersection (S := Int)).1 [] [("gender", ["female"])]
      [pAlpha] pAlpha (by simp) (by simp)
  · exact fun h => (C8_post_filter_intersection (S := Int)).2.1
      "молодые девушки" ("gender", ["female"]) h
  · exact (C8_post_filter_intersection (S := Int)).2.2 env0 [] [] 0 "q" 40 12
      ⟨[], [], []⟩ rfl rfl rfl rfl

/-! ### Candidate selector (`bot/handlers/candidates.py`)

`difflib.SequenceMatcher(None, a, b).ratio()` is embedded in full for
`isjunk=None`: `b2j` with the autojunk popularity cull (active only for
`len(b) >= 200`), the `find_longest_match` dynamic program with its two
non-junk extension passes (the two junk extension passes are no-ops
because `bjunk` is empty when `isjunk is None`), the matching-block
recursion, and `2*M/T` as an exact rational.  Recursions are
structural on generous step counts.  The float comparison `sc >= 0.65`
is embedded as the exact `13/20 ≤ sc`; the two sides can only differ
for astronomically long inputs where `2*M/T` and `0.65` collide within
one double ulp. -/

/-- `b2j.setdefault(elt, []).append(i)`. -/
def b2jInsert (m : List (Char × List Nat)) (c : Char) (i : Nat) :
    List (Char × List Nat) :=
  match m.lookup c with
  | none => m ++ [(c, [i])]
  | some js => m.map (fun kv => if kv.1 == c then (c, js ++ [i]) else kv)

/-- `__chain_b`'s index map (ascending index lists). -/
def b2jBuild (b : List Char) : List (Char × List Nat) :=
  b.enum.foldl (fun m ci => b2jInsert m ci.2 ci.1) []

/-- Autojunk: for `len(b) >= 200`, drop elements occurring more than
`len(b) // 100 + 1` times. -/
def b2jAutojunk (m : List (Char × List Nat)) (n : Nat) :
    List (Char × List Nat) :=
  if 200 ≤ n then m.filter (fun kv => !(n / 100 + 1 < kv.2.length)) else m

structure FLM where
  besti : Nat
  bestj : Nat
  bestsize : Nat
deriving DecidableEq, Repr

/-- `j2len.get(j-1, 0)` (at `j = 0` Python reads key `-1`, always
absent). -/
def lookupD (m : List (Nat × Nat)) (k : Nat) : Nat :=
  match m.lookup k with
  | none => 0
  | some v => v

/-- The inner `for j in b2j[a[i]]` loop of `find_longest_match`:
`continue` below `blo`, `break` at `bhi`, extend the diagonal run and
track the first strictly-larger best. -/
def flmJLoop (j2lenOld : List (Nat × Nat)) (blo bhi i : Nat) :
    List Nat → List (Nat × Nat) → FLM → List (Nat × Nat) × FLM
  | [], newj2len, best => (newj2len, best)
  | j :: js, newj2len, best =>
    if j < blo then flmJLoop j2lenOld blo bhi i js newj2len best
    else if bhi ≤ j then (newj2len, best)
    else
      let k := (if j = 0 then 0 else lookupD j2lenOld (j - 1)) + 1
      let best' := if best.bestsize < k then FLM.mk (i + 1 - k) (j + 1 - k) k else best
      flmJLoop j2lenOld blo bhi i js (newj2len ++ [(j, k)]) best'

/-- The outer `for i in range(alo, ahi)` loop. -/
def flmILoop (a : List Char) (b2j : List (Char × List Nat)) (blo bhi : Nat) :
    List Nat → List (Nat × Nat) → FLM → FLM
  | [], _, best => best
  | i :: is, j2len, best =>
    let js := match b2j.lookup (a.getD i (Char.ofNat 0)) with
      | none => []
      | some js => js
    let step := flmJLoop j2len blo bhi i js [] best
    flmILoop a b2j blo bhi is step.1 step.2

/-- The first (non-junk) extension `while` loop, walking the block
backwards; the step count bounds the iterations (`besti` strictly
decreases, so `besti` steps always suffice). -/
def extendBack (a b : List Char) (alo blo : Nat) : Nat → FLM → FLM
  | 0, best => best
  | fuel + 1, best =>
    if alo < best.besti ∧ blo < best.bestj ∧
        a.getD (best.besti - 1) (Char.ofNat 0)
          = b.getD (best.bestj - 1) (Char.ofNat 0) then
      extendBack a b alo blo fuel ⟨best.besti - 1, best.bestj - 1, best.bestsize + 1⟩
    else best

/-- The second (non-junk) extension `while` loop, growing the block
forwards. -/
def extendFwd (a b : List Char) (ahi bhi : Nat) : Nat → FLM → FLM
  | 0, best => best
  | fuel + 1, best =>
    if best.besti + best.bestsize < ahi ∧ best.bestj + best.bestsize < bhi ∧
        a.getD (best.besti + best.bestsize) (Char.ofNat 0)
          = b.getD (best.bestj + best.bestsize) (Char.ofNat 0) then
      extendFwd a b ahi bhi fuel ⟨best.besti, best.bestj, best.bestsize + 1⟩
    else best

/-- `find_longest_match` for `isjunk=None` (`bjunk = ∅`, so the two
junk extension loops never fire and are omitted). -/
def find_longest_match (a b : List Char) (b2j : List (Char × List Nat))
    (alo ahi blo bhi : Nat) : FLM :=
  let best := flmILoop a b2j blo bhi (List.range' alo (ahi - alo)) [] ⟨alo, blo, 0⟩
  let best := extendBack a b alo blo best.besti best
  extendFwd a b ahi bhi (ahi + 1) best

/-- Total size of the matching blocks (`get_matching_blocks`' queue
recursion; only the size sum matters for `ratio`).  The step count
bounds the recursion depth (each sub-interval is strictly narrower, so
`ahi + bhi + 1` always suffices). -/
def matchesSum (a b : List Char) (b2j : List (Char × List Nat)) :
    Nat → Nat → Nat → Nat → Nat → Nat
  | 0, _, _, _, _ => 0
  | fuel + 1, alo, ahi, blo, bhi =>
    let m := find_longest_match a b b2j alo ahi blo bhi
    if m.bestsize = 0 then 0
    else m.bestsize
      + (if alo < m.besti ∧ blo < m.bestj then
          matchesSum a b b2j fuel alo m.besti blo m.bestj else 0)
      + (if m.besti + m.bestsize < ahi ∧ m.bestj + m.bestsize < bhi then
          matchesSum a b b2j fuel (m.besti + m.bestsize) ahi
            (m.bestj + m.bestsize) bhi else 0)

/-- `SequenceMatcher(None, a, b).ratio() = 2*M/T` (and `1.0` for two
empty sequences), as an exact rational. -/
def sm_ratio (a b : List Char) : ℚ :=
  let b2j := b2jAutojunk (b2jBuild b) b.length
  let msum := matchesSum a b b2j (a.length + b.length + 1) 0 a.length 0 b.length
  if a.length + b.length ≠ 0 then (2 * msum : ℚ) / (a.length + b.length)
  else 1

/-- The substring-AND branch of `_select_by_phrase_text`: candidates
whose (lowered) title contains every `≥ 3`-character token of the
reply. -/
def substring_matches (candidates : List (String × String))
    (phrase_l : String) : List (String × String) :=
  let toks := (pySplitWS phrase_l).filter (fun t => 3 ≤ t.length)
  candidates.filter (fun c => toks.all (fun t => containsSub t (pyLower c.2)))

/-- The fuzzy branch's scored candidates, stable-sorted descending by
ratio. -/
def fuzzy_scored (candidates : List (String × String)) (phrase_l : String) :
    List (ℚ × (String × String)) :=
  (candidates.map (fun c => (sm_ratio phrase_l.data (pyLower c.2).data, c))).insertionSort
    scoreDescRel

/-- The fuzzy branch: keep ratios `≥ 0.65`, return the top 3. -/
def fuzzy_matches (candidates : List (String × String)) (phrase_l : String) :
    List (String × String) :=
  (((fuzzy_scored candidates phrase_l).filter
    (fun sc => (13 : ℚ)/20 ≤ sc.1)).take 3).map (·.2)

/-- `bot/handlers/candidates.py::_select_by_phrase_text`. -/
def select_by_phrase_text (candidates : List (String × String))
    (phrase : String) : List (String × String) :=
  let phrase_l := pyLower phrase
  let out := substring_matches candidates phrase_l
  if !out.isEmpty then out.take 5
  else fuzzy_matches candidates phrase_l

/-- The ordinal-word-prefix table, in source (insertion) order. -/
def ordMap : List (String × Nat) :=
  [("перва", 1), ("перву", 1), ("перв", 1),
   ("втора", 2), ("втору", 2), ("втор", 2),
   ("треть", 3), ("третью", 3), ("трет", 3),
   ("четв", 4), ("пят", 5), ("шест", 6), ("седьм", 7),
   ("восьм", 8), ("девят", 9), ("десят", 10)]

/-- The numeric value of a digit string (Python `int` on a non-empty
all-digit string). -/
def digitsVal (l : List Char) : Nat :=
  l.foldl (fun acc c => acc * 10 + (c.toNat - 48)) 0

/-- `by_idx = {str(i): personas[i-1] for i in 1..len}` lookup: the key
must be the canonical decimal of an in-range 1-based index. -/
def byIdxLookup (personas : List (String × String)) (s : String) :
    Option (String × String) :=
  let i := digitsVal s.data
  if toString i = s ∧ 1 ≤ i ∧ i ≤ personas.length then personas.get? (i - 1)
  else none

def startsWithStr (pre s : String) : Bool :=
  pre.data.isPrefixOf s.data

/-- The ordinal loop: first table entry whose key prefixes the token
AND whose index is displayable; a prefix match with an out-of-range
index does not break the loop. -/
def ordLookup (personas : List (String × String)) (token : String) :
    List (String × String) :=
  match ordMap.find? (fun ki => startsWithStr ki.1 token
      && (byIdxLookup personas (toString ki.2)).isSome) with
  | none => []
  | some ki =>
    match byIdxLookup personas (toString ki.2) with
    | some c => [c]
    | none => []

/-- `token.split(sep, 1)`. -/
def splitFirst (sep : Char) : List Char → List Char × List Char
  | [] => ([], [])
  | c :: cs =>
    if c = sep then ([], cs)
    else
      let r := splitFirst sep cs
      (c :: r.1, r.2)

/-- One token of the selector chain.  NOTE the source order: the
digit-extraction lookup runs FIRST, so a token such as `"2-4"` with 24
or more candidates selects index 24, not the range.  A range whose
endpoints carry no digits raises inside the `try` and falls through to
the ordinal table; out-of-range indices of a range are silently
skipped. -/
def parseToken (personas : List (String × String)) (token : String) :
    List (String × String) :=
  let num_only := String.mk (token.data.filter Char.isDigit)
  match byIdxLookup personas num_only with
  | some c => [c]
  | none =>
    let sep : Option Char :=
      if token.data.contains '-' then some '-'
      else if token.data.contains '–' then some '–'
      else none
    match sep with
    | some sepc =>
      let parts := splitFirst sepc token.data
      let aDigits := parts.1.filter Char.isDigit
      let bDigits := parts.2.filter Char.isDigit
      if aDigits ≠ [] ∧ bDigits ≠ [] then
        let ai := digitsVal aDigits
        let bi := digitsVal bDigits
        (List.range' ai (bi + 1 - ai)).filterMap
          (fun i => byIdxLookup personas (toString i))
      else ordLookup personas token
    | none => ordLookup personas token

/-- Comma/semicolon tokenization
(`[p.strip() for p in text.replace(";", ",").split(",") if p.strip()]`)
followed by the per-token chain. -/
def parse_selection_tokens (personas : List (String × String))
    (text : String) : List (String × String) :=
  let parts := ((splitOnChar ',' (pyReplaceChar ';' ',' text).data).map
    (fun l => pyStrip (String.mk l))).filter (fun s => s ≠ "")
  parts.flatMap (parseToken personas)

/-- Python `str.isalpha()` per character, for the scripts the sources
use (ASCII and Cyrillic). -/
def pyIsAlpha (c : Char) : Bool :=
  ('a' ≤ c && c ≤ 'z') || ('A' ≤ c && c ≤ 'Z')
  || (0x410 ≤ c.toNat && c.toNat ≤ 0x44F)
  || c.toNat == 0x401 || c.toNat == 0x451

/-- Final keep-first de-duplication by profile id. -/
def dedupPairsAux (seen : List String) :
    List (String × String) → List (String × String)
  | [] => []
  | c :: cs =>
    if seen.contains c.1 then dedupPairsAux seen cs
    else c :: dedupPairsAux (seen ++ [c.1]) cs

def dedupPairsFirst (l : List (String × String)) : List (String × String) :=
  dedupPairsAux [] l

/-- The selection core of
`bot/handlers/candidates.py::choose_text_candidates`: strip+lower the
reply, run the index/range/ordinal chain, fall back to
`_select_by_phrase_text` when nothing parsed and the reply has an
alphabetic character, and de-duplicate keeping first occurrences.  An
empty result is the "not understood" terminal state. -/
def choose_text_candidates (personas : List (String × String))
    (textRaw : String) : List (String × String) :=
  let text := pyLower (pyStrip textRaw)
  let chosen := parse_selection_tokens personas text
  let chosen2 :=
    if chosen.isEmpty ∧ text.data.any pyIsAlpha then
      select_by_phrase_text personas text
    else chosen
  dedupPairsFirst chosen2

/-! ### C10: the selector's fuzzy fallback and identical titles -/

lemma contains_false_iff (l : List String) (a : String) :
    l.contains a = false ↔ a ∉ l := by
  constructor
  · intro h hmem
    have h2 : l.contains a = true := List.elem_iff.mpr hmem
    rw [h] at h2
    cases h2
  · intro h
    rcases hh : l.contains a with _ | _
    · rfl
    · exact absurd (List.elem_iff.mp hh) h

/-- When the accumulated ids are all fresh and the list's ids are
distinct, the keep-first dedup is the identity. -/
lemma dedupPairsAux_of_nodup :
    ∀ (l : List (String × String)) (seen : List String),
      (∀ c ∈ l, seen.contains c.1 = false) → (l.map (·.1)).Nodup →
      dedupPairsAux seen l = l := by
  intro l
  induction l with
  | nil => intro seen _ _; rfl
  | cons c cs ih =>
    intro seen hseen hnodup
    rw [dedupPairsAux]
    rw [hseen c (List.mem_cons_self c cs)]
    simp only [Bool.false_eq_true, if_false]
    congr 1
    rw [List.map_cons, List.nodup_cons] at hnodup
    apply ih
    · intro c' hc'
      rw [contains_false_iff]
      intro hmem
      rcases List.mem_append.mp hmem with h' | h'
      · exact absurd h' ((contains_false_iff seen c'.1).mp
          (hseen c' (List.mem_cons_of_mem c hc')))
      · simp only [List.mem_singleton] at h'
        exact hnodup.1 (h' ▸ List.mem_map.mpr ⟨c', hc', rfl⟩)
    · exact hnodup.2

lemma dedupPairsFirst_of_nodup (l : List (String × String))
    (h : (l.map (·.1)).Nodup) : dedupPairsFirst l = l :=
  dedupPairsAux_of_nodup l [] (fun _ _ => rfl) h

/-- A candidate whose lowered title IS the lowered reply passes the
substring-AND filter: every (≥ 3-character) token of the reply is a
contiguous substring of the reply itself. -/
lemma mem_substring_matches_of_title_eq {candidates : List (String × String)}
    {phrase_l pid title : String}
    (hmem : (pid, title) ∈ candidates) (heq : pyLower title = phrase_l) :
    (pid, title) ∈ substring_matches candidates phrase_l := by
  unfold substring_matches
  dsimp only
  apply List.mem_filter.mpr
  refine ⟨hmem, ?_⟩
  rw [List.all_eq_true]
  intro t ht
  have ht' : t ∈ pySplitWS phrase_l := (List.mem_filter.mp ht).1
  rcases List.mem_map.mp ht' with ⟨tok, htok, he⟩
  show containsSub t (pyLower title) = true
  rw [heq, ← he]
  exact isSubChars_of_within _ _ (splitWSF_token_within _ _ tok htok)

def cands6 : List (String × String) :=
  [("p1", "alpha beta one"), ("p2", "alpha beta two"), ("p3", "alpha beta three"),
   ("p4", "alpha beta four"), ("p5", "alpha beta five"), ("p6", "alpha beta")]

/-- C10 (counterexample): a candidate whose title is identical to the
reply is NOT always selected — with six candidates whose titles all
contain every reply token, the substring-AND branch fires and its
`[:5]` truncation drops the identical-title candidate listed sixth. -/
theorem C10_identical_title_dropped :
    ("p6", "alpha beta") ∉ choose_text_candidates cands6 "alpha beta" ∧
    ("p1", "alpha beta one") ∈ choose_text_candidates cands6 "alpha beta" := by
  constructor
  · decide
  · decide

/-- C10 (amended): (1) the fuzzy fallback keeps exactly the candidates
whose `SequenceMatcher` ratio against the reply is at least `0.65` and
returns at most the top 3, descending, complete when three or fewer
qualify; (2) a candidate whose lowered title equals the lowered reply
always matches the substring-AND branch and is selected whenever that
branch has at most five matches (the reply parsing no index/range/
ordinal token and containing a letter); (3) consequently the fuzzy
branch is never reached while an identical-title candidate exists, so
its similarity-1.0 case is vacuous there. -/
theorem C10_selector_fuzzy_and_identical :
    (∀ (candidates : List (String × String)) (phrase_l : String),
      (fuzzy_matches candidates phrase_l).length ≤ 3 ∧
      List.Sorted scoreDescRel
        (((fuzzy_scored candidates phrase_l).filter
          (fun sc => (13 : ℚ)/20 ≤ sc.1)).take 3) ∧
      (∀ c ∈ fuzzy_matches candidates phrase_l,
        c ∈ candidates ∧ (13 : ℚ)/20 ≤ sm_ratio phrase_l.data (pyLower c.2).data) ∧
      (((fuzzy_scored candidates phrase_l).filter
          (fun sc => (13 : ℚ)/20 ≤ sc.1)).length ≤ 3 →
        ∀ sc ∈ (fuzzy_scored candidates phrase_l).filter
          (fun sc => (13 : ℚ)/20 ≤ sc.1),
          sc.2 ∈ fuzzy_matches candidates phrase_l)) ∧
    (∀ (personas : List (String × String)) (textRaw pid title : String),
      (pid, title) ∈ personas →
      pyLower title = pyLower (pyStrip textRaw) →
      parse_selection_tokens personas (pyLower (pyStrip textRaw)) = [] →
      (pyLower (pyStrip textRaw)).data.any pyIsAlpha = true →
      (substring_matches personas (pyLower (pyStrip textRaw))).length ≤ 5 →
      (personas.map (·.1)).Nodup →
      (pid, title) ∈ choose_text_candidates personas textRaw) ∧
    (∀ (candidates : List (String × String)) (phrase_l : String),
      substring_matches candidates phrase_l = [] →
      ∀ pid title, (pid, title) ∈ candidates → pyLower title ≠ phrase_l) := by
  refine ⟨?_, ?_, ?_⟩
  · intro candidates phrase_l
    refine ⟨?_, ?_, ?_, ?_⟩
    · unfold fuzzy_matches
      rw [List.length_map, List.length_take]
      exact min_le_left _ _
    · exact List.Pairwise.sublist (List.take_sublist _ _)
        (List.Pairwise.filter _ (List.sorted_insertionSort _ _))
    · intro c hc
      unfold fuzzy_matches at hc
      rcases List.mem_map.mp hc with ⟨sc, hsc, he⟩
      have h1 := List.mem_filter.mp (List.take_subset _ _ hsc)
      have h2 := (List.perm_insertionSort (scoreDescRel (S := ℚ)) _).mem_iff.mp h1.1
      rcases List.mem_map.mp h2 with ⟨c', hc', he'⟩
      subst he'
      rw [← he]
      exact ⟨hc', of_decide_eq_true h1.2⟩
    · intro hlen sc hsc
      unfold fuzzy_matches
      rw [List.take_of_length_le hlen]
      exact List.mem_map.mpr ⟨sc, hsc, rfl⟩
  · intro personas textRaw pid title hmem htitle hparse halpha hlen hnodup
    unfold choose_text_candidates
    dsimp only
    rw [hparse]
    rw [if_pos ⟨rfl, halpha⟩]
    have hout : (pid, title) ∈ substring_matches personas (pyLower (pyStrip textRaw)) :=
      mem_substring_matches_of_title_eq hmem htitle
    have houtne : substring_matches personas (pyLower (pyStrip textRaw)) ≠ [] :=
      List.ne_nil_of_mem hout
    unfold select_by_phrase_text
    dsimp only
    simp only [pyLower_idem]
    rw [if_pos (by simpa [List.isEmpty_iff] using houtne)]
    have hsub : List.Sublist
        (substring_matches personas (pyLower (pyStrip textRaw))) personas :=
      List.filter_sublist _
    have hnodup' : ((substring_matches personas
        (pyLower (pyStrip textRaw))).map (·.1)).Nodup :=
      List.Nodup.sublist (List.Sublist.map _ hsub) hnodup
    rw [List.take_of_length_le hlen]
    rw [dedupPairsFirst_of_nodup _ hnodup']
    exact hout
  · intro candidates phrase_l hempty pid title hmem heq
    have := mem_substring_matches_of_title_eq hmem heq
    rw [hempty] at this
    cases this

/-- C10 witness: the amended theorem applied at concrete inputs — the
fuzzy conjunct over one non-matching candidate (completeness hypothesis
discharged by a length bound), the identical-title conjunct over the
reply "hello world", and the vacuity conjunct over a reply matching
nothing. -/
theorem C10_selector_witness :
    (∀ sc ∈ (fuzzy_scored [("p1", "zzzz")] "qqq www").filter
        (fun sc => (13 : ℚ)/20 ≤ sc.1),
      sc.2 ∈ fuzzy_matches [("p1", "zzzz")] "qqq www") ∧
    ("p1", "hello world") ∈ choose_text_candidates [("p1", "hello world")] "hello world" ∧
    (∀ pid title, (pid, title) ∈ [("p1", "zzzz")] → pyLower title ≠ "qqq www") := by
  refine ⟨?_, ?_, ?_⟩
  · apply (C10_selector_fuzzy_and_identical.1 [("p1", "zzzz")] "qqq www").2.2.2
    calc ((fuzzy_scored [("p1", "zzzz")] "qqq www").filter
          (fun sc => (13 : ℚ)/20 ≤ sc.1)).length
        ≤ (fuzzy_scored [("p1", "zzzz")] "qqq www").length :=
          List.length_filter_le _ _
      _ ≤ 3 := by
          unfold fuzzy_scored
          rw [(List.perm_insertionSort _ _).length_eq, List.length_map]
          decide
  · exact C10_selector_fuzzy_and_identical.2.1 [("p1", "hello world")]
      "hello world" "p1" "hello world" (by decide) rfl (by decide) (by decide)
      (by decide) (by decide)
  · exact C10_selector_fuzzy_and_identical.2.2 [("p1", "zzzz")] "qqq www"
      (by decide)

end Koridor
